import Mathlib

/-!
Verification development for the scaffolding script `sbin/scaffold.py` of the
autobots-agent-jarvis template repository.

The script is embedded shallowly: Python strings become `String`, the on-disk
file tree becomes the inductive `FSEntry`/`FSListing` pair, and each Python
function becomes a Lean function of the same name operating on that state.
Machine-level aspects (permissions, encodings, st_mtime) are outside the model:
file contents are `String`s and an unreadable file simply does not occur.
All definitions are structural recursions so that they evaluate inside the
kernel; `replaceGo` carries an explicit fuel argument (always instantiated
with the length of the scanned list) only to make the recursion structural.
-/

/-! ## String primitives (Python `str` methods) -/

/-- Fuel-driven scanner implementing Python `str.replace` on char lists:
scan left to right, replace every non-overlapping occurrence of `old` by
`new`.  With `old = []` it reproduces the Python behaviour of inserting
`new` between all characters.  Adequate whenever `s.length ≤ fuel`. -/
def replaceGo (old new : List Char) : Nat → List Char → List Char
  | _, [] => if old = [] then new else []
  | 0, s => s
  | fuel+1, c :: rest =>
    if old ≠ [] ∧ old <+: (c :: rest) then
      new ++ replaceGo old new fuel ((c :: rest).drop old.length)
    else if old = [] then
      new ++ c :: replaceGo old new fuel rest
    else
      c :: replaceGo old new fuel rest

/-- Python `s.replace(old, new)` on char lists. -/
def replaceL (old new s : List Char) : List Char := replaceGo old new s.length s

/-- Python `s.replace(old, new)`. -/
def pyReplace (s old new : String) : String := ⟨replaceL old.data new.data s.data⟩

/-- Python `pat in s` (substring containment). -/
def strContains (s pat : String) : Bool := decide (pat.data <:+: s.data)

/-- Python `s.upper()` (ASCII inputs only, which is all the script produces). -/
def strUpper (s : String) : String := ⟨s.data.map Char.toUpper⟩

/-- Python `s.lower()` (ASCII inputs only). -/
def strLower (s : String) : String := ⟨s.data.map Char.toLower⟩

/-- Python `s.capitalize()`: first char upper-cased, the rest lower-cased. -/
def pyCapitalize (l : List Char) : List Char :=
  match l with
  | [] => []
  | c :: rest => c.toUpper :: rest.map Char.toLower

/-- Python `s.split("-")` on char lists (`"".split("-") = [""]`,
and empty segments are kept). -/
def splitDash : List Char → List (List Char)
  | [] => [[]]
  | c :: rest =>
    if c = '-' then [] :: splitDash rest
    else
      match splitDash rest with
      | [] => [[c]]
      | s :: ss => (c :: s) :: ss

/-- CPython `PurePath.suffix` of a file name: the part from the last dot on,
nonempty only when that dot sits strictly inside the name
(`"a.tar.gz" ↦ ".gz"`, `".gitignore" ↦ ""`, `"a." ↦ ""`). -/
def pySuffix (name : String) : String :=
  let r := name.data.reverse
  let extRev := r.takeWhile (fun c => decide (c ≠ '.'))
  match r.drop extRev.length with
  | [] => ""
  | _ :: rem => if extRev = [] then "" else if rem = [] then "" else ⟨'.' :: extRev.reverse⟩

/-! ## Name validation and derivation (`derive_names`, scaffold.py lines 77-96) -/

/-- One char of `[a-z]`. -/
def isLowerAZ (c : Char) : Bool := decide ('a' ≤ c) && decide (c ≤ 'z')

/-- One char of `[a-z0-9]`. -/
def isLowerDigit (c : Char) : Bool := isLowerAZ c || (decide ('0' ≤ c) && decide (c ≤ '9'))

/-- First hyphen-separated segment: `[a-z][a-z0-9]*`. -/
def segFirstOk : List Char → Bool
  | [] => false
  | c :: rest => isLowerAZ c && rest.all isLowerDigit

/-- Later hyphen-separated segment: `[a-z0-9]+`. -/
def segRestOk : List Char → Bool
  | [] => false
  | l => l.all isLowerDigit

/-- Full-string membership in the language of the regular expression
`^[a-z][a-z0-9]*(-[a-z0-9]+)*$` (the naming grammar as written). -/
def grammarOk (l : List Char) : Bool :=
  match splitDash l with
  | [] => false
  | first :: rest => segFirstOk first && rest.all segRestOk

/-- What `re.match(r"^[a-z][a-z0-9]*(-[a-z0-9]+)*$", name)` actually tests:
in Python (without `re.MULTILINE`) the `$` anchor also matches just before a
single newline at the very end of the string, so the code additionally accepts
any grammar word followed by one trailing newline. -/
def pyRegexMatch (l : List Char) : Bool :=
  grammarOk l || (decide (l.getLast? = some '\n') && grammarOk l.dropLast)

/-- The dict returned by `derive_names` (fixed keys, so a record). -/
structure NameVariants where
  name : String
  repo_name : String
  pypi_name : String
  package_name : String
  snake_name : String
  pascal_name : String
  display_name : String
deriving DecidableEq, Repr

/-- `derive_names` (scaffold.py lines 77-96): validate the candidate name
against the grammar regex; on failure print a diagnostic and `sys.exit(1)`
(modelled as `Except.error` carrying the printed message); on success derive
all name variants. -/
def derive_names (name : String) : Except String NameVariants :=
  if pyRegexMatch name.data then
    let snake := pyReplace name "-" "_"
    let partsCap := (splitDash name.data).map (fun p => String.mk (pyCapitalize p))
    let pascal := String.join partsCap
    let display := String.intercalate " " partsCap
    Except.ok
      ⟨name, "autobots-" ++ name, "autobots-" ++ name, "autobots_" ++ snake,
        snake, pascal, display⟩
  else
    Except.error
      ("Error: name \x27" ++ name ++
        "\x27 must be lowercase with hyphens (e.g., \x27kbe-pay\x27, \x27my-app\x27)")

/-! ## Replacement table (`build_replacements`, lines 99-135) -/

/-- `build_replacements`: the ordered list of (old, new) literal replacements,
most specific first. -/
def build_replacements (names : NameVariants) : List (String × String) :=
  let sn := names.snake_name
  let upper_sn := strUpper sn
  let pkg := names.package_name
  let pascal := names.pascal_name
  let display := names.display_name
  let repo := names.repo_name
  [("autobots-agents-jarvis", repo),
   ("autobots_agents_jarvis", pkg),
   ("JarvisSettings", pascal ++ "Settings"),
   ("get_jarvis_settings", "get_" ++ sn ++ "_settings"),
   ("init_jarvis_settings", "init_" ++ sn ++ "_settings"),
   ("register_jarvis_tools", "register_" ++ sn ++ "_tools"),
   ("_get_jarvis_batch_agents", "_get_" ++ sn ++ "_batch_agents"),
   ("jarvis_registered", sn ++ "_registered"),
   ("jarvis_batch", sn ++ "_batch"),
   ("jarvis_chat", sn ++ "_chat"),
   ("jarvis-chat", sn ++ "-chat"),
   ("jarvis_tools", sn ++ "_tools"),
   ("jarvis-invoke-demo", sn ++ "-invoke-demo"),
   ("run_jarvis", "run_" ++ sn),
   ("jarvis_ui", sn ++ "_ui"),
   ("JARVIS", upper_sn),
   ("Jarvis", display),
   ("jarvis", sn)]

/-- `apply_replacements` (lines 143-147): fold the table over the content,
each pair applied globally in order. -/
def apply_replacements (content : String) (replacements : List (String × String)) : String :=
  replacements.foldl (fun c p => pyReplace c p.1 p.2) content

/-! ## Fixed configuration (lines 23-74) -/

/-- `SKIP_DIRS` (line 24): directory names protected from the tree walks. -/
def SKIP_DIRS : List String := [".git", ".venv", "__pycache__", "node_modules"]

/-- `BINARY_EXTENSIONS` (lines 27-51). -/
def BINARY_EXTENSIONS : List String :=
  [".png", ".jpg", ".jpeg", ".gif", ".ico", ".bmp", ".svg", ".woff", ".woff2",
   ".ttf", ".eot", ".pyc", ".pyo", ".so", ".dylib", ".zip", ".tar", ".gz",
   ".bz2", ".xz", ".pdf", ".drawio", ".lock"]

/-- `is_binary` (lines 138-140): classification by lower-cased path suffix. -/
def is_binary (name : String) : Bool :=
  decide (strLower (pySuffix name) ∈ BINARY_EXTENSIONS)

/-- `ARTIFACTS_TO_CLEAN` (lines 54-61), as root-relative component paths. -/
def ARTIFACTS_TO_CLEAN : List (List String) :=
  [[".coverage"], ["coverage.xml"], ["htmlcov"], [".pytest_cache"],
   [".ruff_cache"], ["poetry.lock"]]

/-- `PATHS_TO_REMOVE` (lines 64-74), as root-relative component paths. -/
def PATHS_TO_REMOVE : List (List String) :=
  [["src", "autobots_agents_jarvis", "domains", "customer_support"],
   ["src", "autobots_agents_jarvis", "domains", "sales"],
   ["agent_configs", "customer-support"],
   ["agent_configs", "sales"],
   ["sbin", "run_customer_support.sh"],
   ["sbin", "run_sales.sh"],
   ["sbin", "run_all_domains.sh"],
   ["tests", "unit", "domains"],
   ["tests", "sanity"]]

/-! ## File-system model

A directory tree: entries are files with string content or directories with an
ordered listing of named children (the order models `os.scandir` order).
Paths are lists of components relative to the project root. -/

mutual
inductive FSEntry where
  | file (content : String)
  | dir (children : FSListing)
deriving Repr
inductive FSListing where
  | nil
  | cons (name : String) (entry : FSEntry) (rest : FSListing)
deriving Repr
end

/-- Find the entry of the given name in a listing. -/
def lookupName : FSListing → String → Option FSEntry
  | FSListing.nil, _ => none
  | FSListing.cons m e rest, n => if m = n then some e else lookupName rest n

/-- Drop the entry of the given name from a listing. -/
def removeChild : FSListing → String → FSListing
  | FSListing.nil, _ => FSListing.nil
  | FSListing.cons m e rest, n =>
    if m = n then removeChild rest n else FSListing.cons m e (removeChild rest n)

/-- Replace the entry of the given name, or append it at the end. -/
def upsertChild : FSListing → String → FSEntry → FSListing
  | FSListing.nil, n, e => FSListing.cons n e FSListing.nil
  | FSListing.cons m e0 rest, n, e =>
    if m = n then FSListing.cons n e rest else FSListing.cons m e0 (upsertChild rest n e)

/-- Whether a listing has no entries. -/
def FSListing.isEmptyL : FSListing → Bool
  | FSListing.nil => true
  | FSListing.cons _ _ _ => false

/-- Resolve a root-relative component path to an entry. -/
def FSEntry.lookup : FSEntry → List String → Option FSEntry
  | e, [] => some e
  | FSEntry.file _, _ :: _ => none
  | FSEntry.dir cs, n :: rest =>
    match lookupName cs n with
    | some e => e.lookup rest
    | none => none

/-- Remove the entry at a path (`Path.unlink` / `shutil.rmtree`); no-op when
the path does not resolve. -/
def removePath : FSEntry → List String → FSEntry
  | e, [] => e
  | FSEntry.file c, _ :: _ => FSEntry.file c
  | FSEntry.dir cs, n :: rest =>
    match rest with
    | [] => FSEntry.dir (removeChild cs n)
    | _ :: _ =>
      match lookupName cs n with
      | some e => FSEntry.dir (upsertChild cs n (removePath e rest))
      | none => FSEntry.dir cs

/-- Overwrite (or create) the file at a path (`Path.write_text`); used only at
paths whose entry has been read as a file just before. -/
def writeFile : FSEntry → List String → String → FSEntry
  | e, [], _ => e
  | FSEntry.file c, _ :: _, _ => FSEntry.file c
  | FSEntry.dir cs, n :: rest, c =>
    match rest with
    | [] => FSEntry.dir (upsertChild cs n (FSEntry.file c))
    | _ :: _ =>
      match lookupName cs n with
      | some e => FSEntry.dir (upsertChild cs n (writeFile e rest c))
      | none => FSEntry.dir cs

/-! ## Step 1 and 2: artifact cleanup and demo removal (lines 150-179) -/

/-- Shared shape of `clean_artifacts` and `remove_demo_content`: each target is
independently optional; in dry-run mode only a message is printed. -/
def removeIfExists (dry : Bool) (t : FSEntry) (p : List String) : FSEntry :=
  if (t.lookup p).isSome then (if dry then t else removePath t p) else t

/-- `clean_artifacts` (lines 150-163). -/
def clean_artifacts (dry : Bool) (t : FSEntry) : FSEntry :=
  ARTIFACTS_TO_CLEAN.foldl (removeIfExists dry) t

/-- `remove_demo_content` (lines 166-179). -/
def remove_demo_content (dry : Bool) (t : FSEntry) : FSEntry :=
  PATHS_TO_REMOVE.foldl (removeIfExists dry) t

/-! ## Step 3: content rewriting (`replace_in_files`, lines 182-211) -/

mutual
/-- Body of the `os.walk` of `replace_in_files` over one directory listing:
directories named in `SKIP_DIRS` are pruned, binary-classified files are
skipped, and in dry-run mode nothing is written back. -/
def replaceListing (reps : List (String × String)) (dry : Bool) : FSListing → FSListing
  | FSListing.nil => FSListing.nil
  | FSListing.cons n (FSEntry.file c) rest =>
    FSListing.cons n
      (FSEntry.file (if is_binary n then c else if dry then c else apply_replacements c reps))
      (replaceListing reps dry rest)
  | FSListing.cons n (FSEntry.dir cs) rest =>
    FSListing.cons n
      (FSEntry.dir (if n ∈ SKIP_DIRS then cs else replaceListing reps dry cs))
      (replaceListing reps dry rest)
end

/-- `replace_in_files` (lines 182-211). -/
def replace_in_files (reps : List (String × String)) (dry : Bool) (t : FSEntry) : FSEntry :=
  match t with
  | FSEntry.file c => FSEntry.file c
  | FSEntry.dir cs => FSEntry.dir (replaceListing reps dry cs)

/-! ## Step 4 and 5: path renaming (`rename_paths`, lines 214-261)

The compute phase walks the tree exactly like `os.walk(project_dir,
topdown=False)`: deepest directories first, and for each visited directory its
matching files first and the directory itself last.  The root-relative path of
the project root is `[]`; a rename of the root itself is recorded as the pair
`([], [newName])` and executed by relabelling the root (the contents of the
directory above the project are outside the model). -/

/-- The skip test of line 233: some component of the root-relative path of the
visited directory is a protected name. -/
def hasSkipComponent (p : List String) : Bool := p.any (fun c => decide (c ∈ SKIP_DIRS))

/-- File renames of one visited directory (lines 237-242): every file whose
name contains `"jarvis"` is renamed with the snake variant substituted. -/
def fileRenames (sn : String) (path : List String) : FSListing → List (List String × List String)
  | FSListing.nil => []
  | FSListing.cons n (FSEntry.file _) rest =>
    (if strContains n "jarvis" then [(path ++ [n], path ++ [pyReplace n "jarvis" sn])] else [])
      ++ fileRenames sn path rest
  | FSListing.cons _ (FSEntry.dir _) rest => fileRenames sn path rest

/-- Directory rename of the visited directory itself (lines 245-251). -/
def dirSelfRename (pkg sn parentName name : String) (path : List String) :
    List (List String × List String) :=
  if name = "autobots_agents_jarvis" then [(path, path.dropLast ++ [pkg])]
  else if name = "jarvis" ∧ (parentName = "domains" ∨ parentName = "agent_configs") then
    [(path, path.dropLast ++ [sn])]
  else []

/-- Bottom-up walk over the children of a directory named `dirName` at
root-relative path `path`, collecting the rename pairs of every descendant
directory (children fully before their parent, in listing order). -/
def walkChildren (sn pkg : String) (dirName : String) (path : List String) :
    FSListing → List (List String × List String)
  | FSListing.nil => []
  | FSListing.cons _ (FSEntry.file _) rest => walkChildren sn pkg dirName path rest
  | FSListing.cons n (FSEntry.dir cs) rest =>
    (walkChildren sn pkg n (path ++ [n]) cs
      ++ (if hasSkipComponent (path ++ [n]) then []
          else fileRenames sn (path ++ [n]) cs ++ dirSelfRename pkg sn dirName n (path ++ [n])))
      ++ walkChildren sn pkg dirName path rest

/-- The compute phase of `rename_paths` (lines 227-251): the full ordered list
of rename pairs, project root visited last. -/
def computeRenames (sn pkg parentName rootName : String) (t : FSEntry) :
    List (List String × List String) :=
  match t with
  | FSEntry.file _ => []
  | FSEntry.dir cs =>
    walkChildren sn pkg rootName [] cs
      ++ (if hasSkipComponent [] then []
          else fileRenames sn [] cs ++ dirSelfRename pkg sn parentName rootName [])

/-- One `Path.rename` inside a single directory listing, with POSIX target
semantics: a file may atomically replace an existing file, a directory may
replace an existing empty directory, and every other collision raises
(`none`).  Every computed pair stays inside one parent directory. -/
def renameInDir (cs : FSListing) (oldName newName : String) : Option FSListing :=
  match lookupName cs oldName with
  | none => none
  | some src =>
    let cs1 := removeChild cs oldName
    match lookupName cs1 newName with
    | none => some (upsertChild cs1 newName src)
    | some (FSEntry.file _) =>
      match src with
      | FSEntry.file _ => some (upsertChild cs1 newName src)
      | FSEntry.dir _ => none
    | some (FSEntry.dir tcs) =>
      match src with
      | FSEntry.file _ => none
      | FSEntry.dir _ => if tcs.isEmptyL then some (upsertChild cs1 newName src) else none

/-- Apply one rename: descend to the parent directory and rename inside it. -/
def renameAt (t : FSEntry) (parent : List String) (oldName newName : String) : Option FSEntry :=
  match t, parent with
  | FSEntry.dir cs, [] => (renameInDir cs oldName newName).map FSEntry.dir
  | FSEntry.dir cs, p :: rest =>
    match lookupName cs p with
    | some child => (renameAt child rest oldName newName).map
        (fun c2 => FSEntry.dir (upsertChild cs p c2))
    | none => none
  | FSEntry.file _, _ => none

/-- The execute phase of `rename_paths` (lines 253-261), on the state
(root directory name, root entry).  In dry-run mode each pair only prints.
Otherwise a pair whose source no longer exists is silently skipped
(`if old_path.exists()`); a rename that raises aborts the run (`true` flag,
an uncaught `OSError` in Python). -/
def execRenames (dry : Bool) :
    List (List String × List String) → String × FSEntry → (String × FSEntry) × Bool
  | [], st => (st, false)
  | (o, n) :: rest, st =>
    if dry then execRenames dry rest st
    else
      match o with
      | [] => execRenames dry rest (n.getLastD st.1, st.2)
      | _ :: _ =>
        if (st.2.lookup o).isSome then
          match renameAt st.2 o.dropLast (o.getLastD "") (n.getLastD "") with
          | some t2 => execRenames dry rest (st.1, t2)
          | none => (st, true)
        else execRenames dry rest st

/-- `rename_paths` (lines 214-261): compute all pairs over the pre-rename
tree, then execute them in order. -/
def rename_paths (sn pkg : String) (dry : Bool) (parentName : String)
    (st : String × FSEntry) : (String × FSEntry) × Bool :=
  execRenames dry (computeRenames sn pkg parentName st.1 st.2) st

/-! ## Step 6: post-processing overrides (lines 303-333) -/

/-- `Path.rglob(target)` over the children of a directory at `path`: the
root-relative paths of every entry (file or directory) named `target`,
descending into every directory, protected ones included. -/
def rglobChildren (target : String) : FSListing → List String → List (List String)
  | FSListing.nil, _ => []
  | FSListing.cons n (FSEntry.file _) rest, path =>
    (if n = target then [path ++ [n]] else []) ++ rglobChildren target rest path
  | FSListing.cons n (FSEntry.dir cs) rest, path =>
    (if n = target then [path ++ [n]] else [])
      ++ rglobChildren target cs (path ++ [n]) ++ rglobChildren target rest path

/-- `project_dir.rglob(target)` (line 323). -/
def rglobName (target : String) (t : FSEntry) (path : List String) : List (List String) :=
  match t with
  | FSEntry.file _ => []
  | FSEntry.dir cs => rglobChildren target cs path

/-- The settings-file loop of lines 323-326: read each collected path, replace
the default-port literal, write back.  Reading a directory raises
(`IsADirectoryError`), aborting the run (`true` flag); a collected path always
resolves, so the missing case also maps to the abort flag. -/
def settingsLoop (portStr : String) : List (List String) → FSEntry → FSEntry × Bool
  | [], t => (t, false)
  | p :: rest, t =>
    match t.lookup p with
    | some (FSEntry.file c) =>
      settingsLoop portStr rest
        (writeFile t p (pyReplace c "default=1337" ("default=" ++ portStr)))
    | _ => (t, true)

/-- Port override after the Makefile rewrite (lines 323-332): the settings
loop, then the generated run-script. -/
def postPortAfterMakefile (sn portStr : String) (t1 : FSEntry) : FSEntry × Bool :=
  match settingsLoop portStr (rglobName "settings.py" t1 []) t1 with
  | (t2, true) => (t2, true)
  | (t2, false) =>
    match t2.lookup ["sbin", "run_" ++ sn ++ ".sh"] with
    | some (FSEntry.dir _) => (t2, true)
    | some (FSEntry.file c) =>
      (writeFile t2 ["sbin", "run_" ++ sn ++ ".sh"]
        (pyReplace c "PORT:-1337" ("PORT:-" ++ portStr)), false)
    | none => (t2, false)

/-- The port override of lines 315-333, skipped entirely when the supplied
port equals the default 1337.  The Makefile is rewritten first when present
(reading a directory named Makefile raises). -/
def postPort (sn : String) (port : Int) (t : FSEntry) : FSEntry × Bool :=
  if port = 1337 then (t, false)
  else
    match t.lookup ["Makefile"] with
    | some (FSEntry.dir _) => (t, true)
    | some (FSEntry.file c) =>
      postPortAfterMakefile sn (toString port)
        (writeFile t ["Makefile"]
          (pyReplace c "CHAINLIT_PORT = 1337" ("CHAINLIT_PORT = " ++ toString port)))
    | none => postPortAfterMakefile sn (toString port) t

/-- The description override of lines 306-313: replace the derived description
string in pyproject.toml when a description was supplied. -/
def postDescription (names : NameVariants) (desc : Option String) (t : FSEntry) :
    FSEntry × Bool :=
  match desc with
  | none => (t, false)
  | some d =>
    match t.lookup ["pyproject.toml"] with
    | some (FSEntry.file c) =>
      (writeFile t ["pyproject.toml"]
        (pyReplace c (names.display_name ++ " - Multi-agent AI Assistant Demo") d), false)
    | some (FSEntry.dir _) => (t, true)
    | none => (t, false)

/-! ## The whole pipeline (`scaffold`, lines 264-351) -/

/-- Parsed command-line arguments (lines 354-386). -/
structure Args where
  name : String
  display_name : Option String
  description : Option String
  port : Int
  dry_run : Bool

/-- How one invocation terminates: normal completion, a controlled
`sys.exit(1)` carrying the printed diagnostic, or an uncaught exception. -/
inductive RunStatus where
  | success
  | earlyExit (msg : String)
  | exception
deriving DecidableEq, Repr

/-- `scaffold` (lines 264-351) as a transformer of the state
(project root directory name, root entry), given the name of the directory
containing the project root.  Returns the termination status together with
the final state.  The self-deletion step removes `sbin/scaffold.py`, the
resolved location of the running script. -/
def scaffold (args : Args) (parentName rootName : String) (t : FSEntry) :
    RunStatus × String × FSEntry :=
  match derive_names args.name with
  | Except.error msg => (RunStatus.earlyExit msg, rootName, t)
  | Except.ok names0 =>
    let names :=
      match args.display_name with
      | some d =>
        ⟨names0.name, names0.repo_name, names0.pypi_name, names0.package_name,
          names0.snake_name, names0.pascal_name, d⟩
      | none => names0
    match t.lookup ["src", "autobots_agents_jarvis"] with
    | some (FSEntry.dir _) =>
      let dry := args.dry_run
      let t1 := clean_artifacts dry t
      let t2 := remove_demo_content dry t1
      let t3 := replace_in_files (build_replacements names) dry t2
      match rename_paths names.snake_name names.package_name dry parentName (rootName, t3) with
      | (st4, true) => (RunStatus.exception, st4.1, st4.2)
      | (st4, false) =>
        if dry then (RunStatus.success, st4.1, st4.2)
        else
          match postDescription names args.description st4.2 with
          | (t5, true) => (RunStatus.exception, st4.1, t5)
          | (t5, false) =>
            match postPort names.snake_name args.port t5 with
            | (t6, true) => (RunStatus.exception, st4.1, t6)
            | (t6, false) =>
              match t6.lookup ["sbin", "scaffold.py"] with
              | some (FSEntry.file _) =>
                (RunStatus.success, st4.1, removePath t6 ["sbin", "scaffold.py"])
              | _ => (RunStatus.exception, st4.1, t6)
    | _ =>
      (RunStatus.earlyExit
        "Error: scaffold.py must be run from a repo cloned from the autobots-agents-jarvis template.",
        rootName, t)

/-! ## Decidable helper predicates used in claim statements -/

/-- No file or directory name in the tree still matches a rename rule of
`rename_paths` (same walk, same skip test, same match conditions, but no
pair is produced): files whose name contains `"jarvis"`, directories named
`autobots_agents_jarvis`, and directories named `jarvis` under a parent
named `domains` or `agent_configs`. -/
def dirMatch (parentName name : String) : Bool :=
  decide (name = "autobots_agents_jarvis")
    || (decide (name = "jarvis")
        && (decide (parentName = "domains") || decide (parentName = "agent_configs")))

/-- Clean listing: no member of the children of the directory named `dirName`
at root-relative path `path` matches a rename rule, recursively. -/
def treeCleanL (dirName : String) (path : List String) : FSListing → Bool
  | FSListing.nil => true
  | FSListing.cons n (FSEntry.file _) rest =>
    (hasSkipComponent path || !(strContains n "jarvis")) && treeCleanL dirName path rest
  | FSListing.cons n (FSEntry.dir cs) rest =>
    treeCleanL n (path ++ [n]) cs
      && (hasSkipComponent (path ++ [n]) || !(dirMatch dirName n))
      && treeCleanL dirName path rest

/-- Clean tree: no name in the tree (the root included) matches a rename
rule of `rename_paths`. -/
def treeClean (parentName rootName : String) (t : FSEntry) : Bool :=
  match t with
  | FSEntry.file _ => true
  | FSEntry.dir cs => treeCleanL rootName [] cs && !(dirMatch parentName rootName)

/-- Some entry (file or directory) of the tree, at any depth, has exactly the
given name. -/
def containsNameL (target : String) : FSListing → Bool
  | FSListing.nil => false
  | FSListing.cons n (FSEntry.file _) rest =>
    decide (n = target) || containsNameL target rest
  | FSListing.cons n (FSEntry.dir cs) rest =>
    decide (n = target) || containsNameL target cs || containsNameL target rest

/-- The entry at the path is a file. -/
def isFileAt (t : FSEntry) (p : List String) : Bool :=
  match t.lookup p with
  | some (FSEntry.file _) => true
  | _ => false

/-- The entry at the path is a directory. -/
def isDirAt (t : FSEntry) (p : List String) : Bool :=
  match t.lookup p with
  | some (FSEntry.dir _) => true
  | _ => false

/-- Concrete fixture: a small project tree with a Makefile, a run-script,
one settings file and one unrelated file. -/
def c7tree : FSEntry :=
  FSEntry.dir
    (FSListing.cons "Makefile" (FSEntry.file "CHAINLIT_PORT = 1337")
      (FSListing.cons "sbin"
        (FSEntry.dir (FSListing.cons "run_kbe_pay.sh" (FSEntry.file "PORT:-1337") FSListing.nil))
        (FSListing.cons "src"
          (FSEntry.dir (FSListing.cons "configs"
            (FSEntry.dir (FSListing.cons "settings.py" (FSEntry.file "default=1337")
              FSListing.nil))
            FSListing.nil))
          (FSListing.cons "README.md" (FSEntry.file "no ports here") FSListing.nil))))

/-- Concrete fixture: a template tree holding a settings file inside the
protected directory `.venv`. -/
def c6tree : FSEntry :=
  FSEntry.dir
    (FSListing.cons "src"
      (FSEntry.dir (FSListing.cons "autobots_agents_jarvis" (FSEntry.dir FSListing.nil)
        FSListing.nil))
      (FSListing.cons ".venv"
        (FSEntry.dir (FSListing.cons "settings.py" (FSEntry.file "default=1337") FSListing.nil))
        (FSListing.cons "sbin"
          (FSEntry.dir (FSListing.cons "scaffold.py" (FSEntry.file "") FSListing.nil))
          FSListing.nil)))

/-- Concrete fixture: a template tree whose protected directory `.venv`
holds a file, but no entry named `settings.py` inside any protected
directory. -/
def c6wtree : FSEntry :=
  FSEntry.dir
    (FSListing.cons "src"
      (FSEntry.dir (FSListing.cons "autobots_agents_jarvis" (FSEntry.dir FSListing.nil)
        FSListing.nil))
      (FSListing.cons ".venv"
        (FSEntry.dir (FSListing.cons "keep.txt" (FSEntry.file "keep me") FSListing.nil))
        (FSListing.cons "sbin"
          (FSEntry.dir (FSListing.cons "scaffold.py" (FSEntry.file "") FSListing.nil))
          FSListing.nil)))

/-! # Theorems

General lemmas about the string primitives, then one theorem per claim
(with its witness or counterexample). -/

theorem replaceGo_no_occ (old new : List Char) (hne : old ≠ []) :
    ∀ (fuel : Nat) (s : List Char), ¬ old <:+: s → replaceGo old new fuel s = s := by
  intro fuel
  induction fuel with
  | zero => intro s h; cases s <;> simp [replaceGo, hne]
  | succ k ih =>
    intro s h
    cases s with
    | nil => simp [replaceGo, hne]
    | cons c rest =>
      rw [replaceGo, if_neg, if_neg hne]
      · rw [ih rest (fun hi => h (List.infix_cons hi))]
      · rintro ⟨-, h2⟩; exact h h2.isInfix

theorem replaceL_no_occ (old new s : List Char) (hne : old ≠ []) (h : ¬ old <:+: s) :
    replaceL old new s = s :=
  replaceGo_no_occ old new hne s.length s h

theorem pyReplace_no_occ (s old new : String) (hne : old.data ≠ [])
    (h : ¬ (old.data <:+: s.data)) : pyReplace s old new = s := by
  unfold pyReplace
  rw [replaceL_no_occ old.data new.data s.data hne h]

theorem pyReplace_self (old new : String) (hne : old.data ≠ []) :
    pyReplace old old new = new := by
  unfold pyReplace replaceL
  cases hd : old.data with
  | nil => exact absurd hd hne
  | cons c rest =>
    rw [List.length_cons, replaceGo, if_pos ⟨List.cons_ne_nil c rest, List.prefix_refl _⟩,
      List.drop_length, replaceGo, if_neg (List.cons_ne_nil c rest)]
    simp

theorem replaceGo_occ_has_new (old new : List Char) (hne : old ≠ []) :
    ∀ (fuel : Nat) (s : List Char), s.length ≤ fuel → old <:+: s →
      new <:+: replaceGo old new fuel s := by
  intro fuel
  induction fuel with
  | zero =>
    intro s hf h
    have : s = [] := List.eq_nil_of_length_eq_zero (Nat.le_zero.mp hf)
    subst this
    exact absurd (List.eq_nil_of_infix_nil h) hne
  | succ k ih =>
    intro s hf h
    cases s with
    | nil => exact absurd (List.eq_nil_of_infix_nil h) hne
    | cons c rest =>
      rw [replaceGo]
      by_cases hp : old ≠ [] ∧ old <+: (c :: rest)
      · rw [if_pos hp]
        exact (List.prefix_append new _).isInfix
      · rw [if_neg hp, if_neg hne]
        have hrest : old <:+: rest := by
          rcases List.infix_cons_iff.mp h with h1 | h1
          · exact absurd ⟨hne, h1⟩ hp
          · exact h1
        have hlen : rest.length ≤ k := by simpa using hf
        exact List.infix_cons (ih rest hlen hrest)

theorem pyReplace_occ_has_new (s old new : String) (hne : old.data ≠ [])
    (h : old.data <:+: s.data) : new.data <:+: (pyReplace s old new).data :=
  replaceGo_occ_has_new old.data new.data hne s.data.length s.data (Nat.le_refl _) h

/-! ## C1 -/

/-- C1: name derivation is a pure function, so two invocations with the same
name agree; and for the input `kbe-pay` it produces exactly the record
claimed by the specification (together with the additional `pypi_name`
field, equal to the repo name). -/
theorem c1_derive_names_deterministic :
    (∀ name : String, derive_names name = derive_names name) ∧
    derive_names "kbe-pay" = Except.ok
      ⟨"kbe-pay", "autobots-kbe-pay", "autobots-kbe-pay", "autobots_kbe_pay",
        "kbe_pay", "KbePay", "Kbe Pay"⟩ :=
  ⟨fun _ => rfl, rfl⟩

/-! ## C2 -/

/-- C2 counterexample: the input `"abc\n"` is not in the language of
`^[a-z][a-z0-9]*(-[a-z0-9]+)*$` read as a full-string grammar, yet
`derive_names` accepts it (Python re `$` also matches before one trailing
newline), deriving a record with the newline embedded in every variant.
So the claim as stated — every input outside the grammar is rejected —
is false at this input. -/
theorem c2_counterexample :
    grammarOk "abc\n".data = false ∧
    derive_names "abc\n" = Except.ok
      ⟨"abc\n", "autobots-abc\n", "autobots-abc\n", "autobots_abc\n",
        "abc\n", "Abc\n", "Abc\n"⟩ :=
  ⟨by decide, rfl⟩

/-- C2 amended: for every input rejected by the regex as Python applies it
(the grammar, plus a grammar word with one trailing newline), the deriver
rejects: the run terminates with the controlled diagnostic exit and the
file tree is returned exactly as it was — no mutation has occurred. -/
theorem c2_amended_rejection (args : Args) (parentName rootName : String) (t : FSEntry)
    (h : pyRegexMatch args.name.data = false) :
    scaffold args parentName rootName t =
      (RunStatus.earlyExit
        ("Error: name \x27" ++ args.name ++
          "\x27 must be lowercase with hyphens (e.g., \x27kbe-pay\x27, \x27my-app\x27)"),
        rootName, t) := by
  unfold scaffold derive_names
  rw [h]
  simp

/-- C2 witness: the uppercase name `MyApp` is rejected with the diagnostic
and an unchanged tree. -/
theorem c2_amended_rejection_witness :
    pyRegexMatch "MyApp".data = false ∧
    scaffold ⟨"MyApp", none, none, 1337, false⟩ "home" "proj"
        (FSEntry.dir (FSListing.cons "x.py" (FSEntry.file "y") FSListing.nil)) =
      (RunStatus.earlyExit
        "Error: name \x27MyApp\x27 must be lowercase with hyphens (e.g., \x27kbe-pay\x27, \x27my-app\x27)",
        "proj", FSEntry.dir (FSListing.cons "x.py" (FSEntry.file "y") FSListing.nil)) :=
  ⟨by decide,
    c2_amended_rejection ⟨"MyApp", none, none, 1337, false⟩ "home" "proj"
      (FSEntry.dir (FSListing.cons "x.py" (FSEntry.file "y") FSListing.nil)) (by decide)⟩

/-! ## C10 -/

/-- C10: in the execute phase of the two-phase renamer, a pair whose source
path no longer exists at execution time is dropped silently: executing the
batch starting with that pair is the same as executing the remaining batch,
no error is raised. -/
theorem c10_exec_skips_missing_source (o n : List String)
    (rest : List (List String × List String)) (st : String × FSEntry)
    (ho : o ≠ []) (h : (st.2.lookup o).isSome = false) :
    execRenames false ((o, n) :: rest) st = execRenames false rest st := by
  cases o with
  | nil => exact absurd rfl ho
  | cons a as =>
    rw [execRenames]
    simp [h]

/-- C10 witness: in the batch `[a ↦ b, a ↦ c]` over a tree holding only `a`,
the first rename consumes `a`; the second pair, whose source was invalidated
by the first, is skipped and the run completes without error. -/
theorem c10_witness :
    execRenames false [(["a"], ["b"]), (["a"], ["c"])]
        ("r", FSEntry.dir (FSListing.cons "a" (FSEntry.file "z") FSListing.nil)) =
      (("r", FSEntry.dir (FSListing.cons "b" (FSEntry.file "z") FSListing.nil)), false) := by
  show execRenames false [(["a"], ["c"])]
      ("r", FSEntry.dir (FSListing.cons "b" (FSEntry.file "z") FSListing.nil)) = _
  rw [c10_exec_skips_missing_source ["a"] ["c"] []
    ("r", FSEntry.dir (FSListing.cons "b" (FSEntry.file "z") FSListing.nil))
    (by decide) rfl]
  rfl

/-! ## C4 -/

/-- Every old string of the replacement table contains one of the three
jarvis tokens; the old strings are fixed literals, independent of the
project name. -/
theorem c4_token_in_old (v : NameVariants) :
    ∀ p ∈ build_replacements v,
      ("jarvis".data <:+: p.1.data) ∨ ("Jarvis".data <:+: p.1.data) ∨
        ("JARVIS".data <:+: p.1.data) := by
  intro p hp
  simp only [build_replacements, List.mem_cons, List.not_mem_nil, or_false] at hp
  rcases hp with rfl | rfl | rfl | rfl | rfl | rfl | rfl | rfl | rfl | rfl | rfl | rfl | rfl |
    rfl | rfl | rfl | rfl | rfl <;> dsimp only <;>
    first | (left; decide) | (right; left; decide) | (right; right; decide)

/-- Folding replacement pairs none of which occurs in the content leaves the
content unchanged. -/
theorem apply_replacements_no_occ (s : String) :
    ∀ reps : List (String × String),
      (∀ p ∈ reps, p.1.data ≠ [] ∧ ¬ (p.1.data <:+: s.data)) →
      apply_replacements s reps = s
  | [], _ => rfl
  | p :: rest, h => by
    have h0 := h p (List.mem_cons_self p rest)
    unfold apply_replacements
    rw [List.foldl_cons, pyReplace_no_occ s p.1 p.2 h0.1 h0.2]
    exact apply_replacements_no_occ s rest (fun q hq => h q (List.mem_cons_of_mem p hq))

/-- C4 counterexample: the project name `jarvisx` is accepted by the grammar,
but its replacement table violates the claim: the first rule produces
`autobots-jarvisx`, in which the old string `jarvis` of the last rule occurs,
so applying the full table to the compound token `autobots-agents-jarvis`
yields `autobots-jarvisxx` — the bare-token rule re-fires on the output of
the compound rule and leaves a corrupted residue instead of the repo name. -/
theorem c4_counterexample :
    derive_names "jarvisx" = Except.ok
      ⟨"jarvisx", "autobots-jarvisx", "autobots-jarvisx", "autobots_jarvisx",
        "jarvisx", "Jarvisx", "Jarvisx"⟩ ∧
    (build_replacements
        ⟨"jarvisx", "autobots-jarvisx", "autobots-jarvisx", "autobots_jarvisx",
          "jarvisx", "Jarvisx", "Jarvisx"⟩).head?.map Prod.snd = some "autobots-jarvisx" ∧
    (build_replacements
        ⟨"jarvisx", "autobots-jarvisx", "autobots-jarvisx", "autobots_jarvisx",
          "jarvisx", "Jarvisx", "Jarvisx"⟩).getLast?.map Prod.fst = some "jarvis" ∧
    ("jarvis".data <:+: "autobots-jarvisx".data) ∧
    apply_replacements "autobots-agents-jarvis"
        (build_replacements
          ⟨"jarvisx", "autobots-jarvisx", "autobots-jarvisx", "autobots_jarvisx",
            "jarvisx", "Jarvisx", "Jarvisx"⟩) = "autobots-jarvisxx" ∧
    ("autobots-jarvisxx" : String) ≠ "autobots-jarvisx" :=
  ⟨rfl, rfl, rfl, by decide, rfl, by decide⟩

/-- C4 amended: for every project name whose derived replacement strings do
not reintroduce any of the jarvis tokens (true in particular of every name
not containing `jarvis`), the table ordering is sound: no later rule's old
string occurs in any earlier rule's new string, and applying the full table
to the compound token `autobots-agents-jarvis` yields exactly the derived
repo name, with no residue of the bare substring token. -/
theorem c4_amended (v : NameVariants)
    (h : ∀ p ∈ build_replacements v,
      ¬ ("jarvis".data <:+: p.2.data) ∧ ¬ ("Jarvis".data <:+: p.2.data) ∧
        ¬ ("JARVIS".data <:+: p.2.data)) :
    List.Pairwise (fun a b : String × String => ¬ (b.1.data <:+: a.2.data))
        (build_replacements v) ∧
      apply_replacements "autobots-agents-jarvis" (build_replacements v) = v.repo_name := by
  constructor
  · refine List.pairwise_of_forall_mem_list ?_
    intro a ha b hb hinf
    rcases c4_token_in_old v b hb with ht | ht | ht
    · exact (h a ha).1 (ht.trans hinf)
    · exact (h a ha).2.1 (ht.trans hinf)
    · exact (h a ha).2.2 (ht.trans hinf)
  · have hhead : ("autobots-agents-jarvis", v.repo_name) ∈ build_replacements v := by
      simp [build_replacements]
    have hno : ∀ p ∈ (build_replacements v).tail,
        p.1.data ≠ [] ∧ ¬ (p.1.data <:+: v.repo_name.data) := by
      intro p hp
      have hmem := List.mem_of_mem_tail hp
      rcases c4_token_in_old v p hmem with ht | ht | ht
      all_goals refine ⟨fun hnil => by rw [hnil] at ht; simp at ht, fun hocc => ?_⟩
      · exact (h _ hhead).1 (ht.trans hocc)
      · exact (h _ hhead).2.1 (ht.trans hocc)
      · exact (h _ hhead).2.2 (ht.trans hocc)
    have hshape : build_replacements v =
        ("autobots-agents-jarvis", v.repo_name) :: (build_replacements v).tail := by
      simp [build_replacements]
    nth_rewrite 1 [hshape]
    unfold apply_replacements
    rw [List.foldl_cons]
    rw [show pyReplace "autobots-agents-jarvis" "autobots-agents-jarvis" v.repo_name
        = v.repo_name from pyReplace_self _ _ (by decide)]
    exact apply_replacements_no_occ v.repo_name _ hno

/-- C4 witness: the name `kbe-pay` satisfies the side condition, so its table
is pairwise sound and rewrites the compound token to `autobots-kbe-pay`. -/
theorem c4_amended_witness :
    List.Pairwise (fun a b : String × String => ¬ (b.1.data <:+: a.2.data))
        (build_replacements
          ⟨"kbe-pay", "autobots-kbe-pay", "autobots-kbe-pay", "autobots_kbe_pay",
            "kbe_pay", "KbePay", "Kbe Pay"⟩) ∧
      apply_replacements "autobots-agents-jarvis"
        (build_replacements
          ⟨"kbe-pay", "autobots-kbe-pay", "autobots-kbe-pay", "autobots_kbe_pay",
            "kbe_pay", "KbePay", "Kbe Pay"⟩) = "autobots-kbe-pay" :=
  c4_amended
    ⟨"kbe-pay", "autobots-kbe-pay", "autobots-kbe-pay", "autobots_kbe_pay",
      "kbe_pay", "KbePay", "Kbe Pay"⟩
    (by intro p hp
        simp only [build_replacements, List.mem_cons, List.not_mem_nil, or_false] at hp
        rcases hp with rfl | rfl | rfl | rfl | rfl | rfl | rfl | rfl | rfl | rfl | rfl | rfl |
          rfl | rfl | rfl | rfl | rfl | rfl <;> exact ⟨by decide, by decide, by decide⟩)

/-! ## C3 -/

theorem removeIfExists_dry (t : FSEntry) (p : List String) :
    removeIfExists true t p = t := by
  unfold removeIfExists
  rw [if_pos rfl, ite_self]

theorem foldl_congr_id {α β : Type} (f : α → β → α) (hf : ∀ a b, f a b = a) :
    ∀ (l : List β) (a : α), l.foldl f a = a
  | [], _ => rfl
  | b :: l, a => by rw [List.foldl_cons, hf, foldl_congr_id f hf l]

theorem clean_artifacts_dry (t : FSEntry) : clean_artifacts true t = t :=
  foldl_congr_id _ removeIfExists_dry _ t

theorem remove_demo_content_dry (t : FSEntry) : remove_demo_content true t = t :=
  foldl_congr_id _ removeIfExists_dry _ t

theorem replaceListing_dry (reps : List (String × String)) :
    ∀ cs : FSListing, replaceListing reps true cs = cs
  | FSListing.nil => rfl
  | FSListing.cons n (FSEntry.file c) rest => by
    rw [replaceListing, replaceListing_dry reps rest, if_pos rfl, ite_self]
  | FSListing.cons n (FSEntry.dir cs2) rest => by
    rw [replaceListing, replaceListing_dry reps rest, replaceListing_dry reps cs2, ite_self]

theorem replace_in_files_dry (reps : List (String × String)) (t : FSEntry) :
    replace_in_files reps true t = t := by
  cases t with
  | file c => rfl
  | dir cs => rw [replace_in_files, replaceListing_dry]

theorem execRenames_dry :
    ∀ (ps : List (List String × List String)) (st : String × FSEntry),
      execRenames true ps st = (st, false)
  | [], _ => rfl
  | (o, n) :: rest, st => by
    show execRenames true rest st = (st, false)
    exact execRenames_dry rest st

theorem rename_paths_dry (sn pkg parentName : String) (st : String × FSEntry) :
    rename_paths sn pkg true parentName st = (st, false) :=
  execRenames_dry _ st

/-- C3: a dry-run invocation never mutates the file system: whatever the
arguments and the input tree, the final state (root name and full tree,
contents and structure) equals the input state, through every step
(cleanup, demo removal, rewriting, renaming, overrides, self-deletion). -/
theorem c3_dry_run_pure (args : Args) (parentName rootName : String) (t : FSEntry)
    (h : args.dry_run = true) :
    (scaffold args parentName rootName t).2 = (rootName, t) := by
  unfold scaffold
  cases hd : derive_names args.name with
  | error msg => rfl
  | ok names0 =>
    cases args.display_name with
    | none =>
      cases hl : t.lookup ["src", "autobots_agents_jarvis"] with
      | none => rfl
      | some e =>
        cases e with
        | file c => rfl
        | dir cs =>
          simp only [h, clean_artifacts_dry, remove_demo_content_dry, replace_in_files_dry,
            rename_paths_dry, if_true]
    | some d =>
      cases hl : t.lookup ["src", "autobots_agents_jarvis"] with
      | none => rfl
      | some e =>
        cases e with
        | file c => rfl
        | dir cs =>
          simp only [h, clean_artifacts_dry, remove_demo_content_dry, replace_in_files_dry,
            rename_paths_dry, if_true]

/-- C3 witness: a concrete dry run over a template tree returns the tree
untouched. -/
theorem c3_witness :
    (scaffold ⟨"kbe-pay", none, some "Desc", 8080, true⟩ "home" "proj"
        (FSEntry.dir (FSListing.cons "src"
          (FSEntry.dir (FSListing.cons "autobots_agents_jarvis"
            (FSEntry.dir (FSListing.cons "run_jarvis.sh" (FSEntry.file "jarvis x") FSListing.nil))
            FSListing.nil))
          (FSListing.cons "poetry.lock" (FSEntry.file "lock") FSListing.nil)))).2 =
      ("proj",
        FSEntry.dir (FSListing.cons "src"
          (FSEntry.dir (FSListing.cons "autobots_agents_jarvis"
            (FSEntry.dir (FSListing.cons "run_jarvis.sh" (FSEntry.file "jarvis x") FSListing.nil))
            FSListing.nil))
          (FSListing.cons "poetry.lock" (FSEntry.file "lock") FSListing.nil))) :=
  c3_dry_run_pure ⟨"kbe-pay", none, some "Desc", 8080, true⟩ "home" "proj" _ rfl

/-! ## C5 -/

theorem dirSelfRename_of_not_match (pkg sn parentName name : String) (path : List String)
    (h : dirMatch parentName name = false) :
    dirSelfRename pkg sn parentName name path = [] := by
  unfold dirMatch at h
  unfold dirSelfRename
  rw [if_neg, if_neg]
  · rintro ⟨h1, h2⟩
    rcases h2 with h2 | h2 <;> simp [h1, h2] at h
  · intro h1
    simp [h1] at h

theorem fileRenames_clean (sn : String) :
    ∀ (cs : FSListing) (dirName : String) (path : List String),
      treeCleanL dirName path cs = true → hasSkipComponent path = false →
      fileRenames sn path cs = []
  | FSListing.nil, _, _, _, _ => rfl
  | FSListing.cons n (FSEntry.file c) rest, dirName, path, h, hs => by
    rw [treeCleanL, Bool.and_eq_true] at h
    rw [fileRenames, fileRenames_clean sn rest dirName path h.2 hs]
    rw [hs, Bool.false_or] at h
    have : strContains n "jarvis" = false := by
      cases hc : strContains n "jarvis"
      · rfl
      · rw [hc] at h; exact absurd h.1 (by decide)
    rw [this]
    rfl
  | FSListing.cons n (FSEntry.dir cs2) rest, dirName, path, h, hs => by
    rw [treeCleanL, Bool.and_eq_true, Bool.and_eq_true] at h
    rw [fileRenames, fileRenames_clean sn rest dirName path h.2 hs]

theorem walkChildren_clean (sn pkg : String) :
    ∀ (cs : FSListing) (dirName : String) (path : List String),
      treeCleanL dirName path cs = true →
      walkChildren sn pkg dirName path cs = []
  | FSListing.nil, _, _, _ => rfl
  | FSListing.cons n (FSEntry.file c) rest, dirName, path, h => by
    rw [treeCleanL, Bool.and_eq_true] at h
    rw [walkChildren, walkChildren_clean sn pkg rest dirName path h.2]
  | FSListing.cons n (FSEntry.dir cs2) rest, dirName, path, h => by
    rw [treeCleanL, Bool.and_eq_true, Bool.and_eq_true] at h
    obtain ⟨⟨h1, h2⟩, h3⟩ := h
    rw [walkChildren, walkChildren_clean sn pkg rest dirName path h3,
      walkChildren_clean sn pkg cs2 n (path ++ [n]) h1]
    cases hs : hasSkipComponent (path ++ [n]) with
    | true => simp
    | false =>
      rw [hs, Bool.false_or] at h2
      have hdm : dirMatch dirName n = false := by
        cases hd : dirMatch dirName n
        · rfl
        · rw [hd] at h2; exact absurd h2 (by decide)
      rw [fileRenames_clean sn cs2 n (path ++ [n]) h1 hs,
        dirSelfRename_of_not_match pkg sn dirName n (path ++ [n]) hdm]
      simp

theorem computeRenames_clean (sn pkg parentName rootName : String) (t : FSEntry)
    (h : treeClean parentName rootName t = true) :
    computeRenames sn pkg parentName rootName t = [] := by
  cases t with
  | file c => rfl
  | dir cs =>
    rw [treeClean, Bool.and_eq_true] at h
    have hdm : dirMatch parentName rootName = false := by
      cases hd : dirMatch parentName rootName
      · rfl
      · rw [hd] at h; exact absurd h.2 (by decide)
    rw [computeRenames, walkChildren_clean sn pkg cs rootName [] h.1]
    rw [show hasSkipComponent [] = false from rfl]
    rw [fileRenames_clean sn cs rootName [] h.1 rfl,
      dirSelfRename_of_not_match pkg sn parentName rootName [] hdm]
    rfl

/-- C5 counterexample: for the valid project name `jarvisx` and a tree with
the single file `run_jarvis.sh`, the first run renames it to
`run_jarvisx.sh`, whose name still contains the token; the second run
computes a further (nonempty) batch and renames it again, to
`run_jarvisxx.sh` — so the second run does not perform zero renames. -/
theorem c5_counterexample :
    derive_names "jarvisx" = Except.ok
      ⟨"jarvisx", "autobots-jarvisx", "autobots-jarvisx", "autobots_jarvisx",
        "jarvisx", "Jarvisx", "Jarvisx"⟩ ∧
    rename_paths "jarvisx" "autobots_jarvisx" false "home"
        ("proj", FSEntry.dir (FSListing.cons "run_jarvis.sh" (FSEntry.file "") FSListing.nil)) =
      (("proj", FSEntry.dir (FSListing.cons "run_jarvisx.sh" (FSEntry.file "") FSListing.nil)),
        false) ∧
    computeRenames "jarvisx" "autobots_jarvisx" "home" "proj"
        (FSEntry.dir (FSListing.cons "run_jarvisx.sh" (FSEntry.file "") FSListing.nil)) ≠ [] ∧
    rename_paths "jarvisx" "autobots_jarvisx" false "home"
        ("proj", FSEntry.dir (FSListing.cons "run_jarvisx.sh" (FSEntry.file "") FSListing.nil)) =
      (("proj", FSEntry.dir (FSListing.cons "run_jarvisxx.sh" (FSEntry.file "") FSListing.nil)),
        false) :=
  ⟨rfl, rfl, by decide, rfl⟩

/-- C5 amended: whenever after the first run no file or directory name left
in the tree matches a rename rule (no file name contains `jarvis`, no
directory is named `autobots_agents_jarvis`, and no directory named `jarvis`
sits under `domains` or `agent_configs` outside protected directories) —
which the first run guarantees for the nominal template but not for every
name and tree — the second run computes an empty batch and performs zero
renames, leaving the state identical. -/
theorem c5_amended (sn pkg parentName : String) (st : String × FSEntry)
    (h : treeClean parentName ((rename_paths sn pkg false parentName st).1).1
        ((rename_paths sn pkg false parentName st).1).2 = true) :
    computeRenames sn pkg parentName ((rename_paths sn pkg false parentName st).1).1
        ((rename_paths sn pkg false parentName st).1).2 = [] ∧
    rename_paths sn pkg false parentName ((rename_paths sn pkg false parentName st).1) =
      ((rename_paths sn pkg false parentName st).1, false) := by
  have hc := computeRenames_clean sn pkg parentName
    ((rename_paths sn pkg false parentName st).1).1
    ((rename_paths sn pkg false parentName st).1).2 h
  refine ⟨hc, ?_⟩
  show execRenames false (computeRenames sn pkg parentName
      ((rename_paths sn pkg false parentName st).1).1
      ((rename_paths sn pkg false parentName st).1).2)
    ((rename_paths sn pkg false parentName st).1) = _
  rw [hc]
  rfl

/-- C5 witness: for `kbe-pay` over a tree with the single file
`run_jarvis.sh`, the first run leaves no matching name, so the second run
changes nothing and computes no renames. -/
theorem c5_amended_witness :
    computeRenames "kbe_pay" "autobots_kbe_pay" "home"
        ((rename_paths "kbe_pay" "autobots_kbe_pay" false "home"
          ("proj", FSEntry.dir (FSListing.cons "run_jarvis.sh" (FSEntry.file "x") FSListing.nil))).1).1
        ((rename_paths "kbe_pay" "autobots_kbe_pay" false "home"
          ("proj", FSEntry.dir (FSListing.cons "run_jarvis.sh" (FSEntry.file "x") FSListing.nil))).1).2 = [] ∧
    rename_paths "kbe_pay" "autobots_kbe_pay" false "home"
        ((rename_paths "kbe_pay" "autobots_kbe_pay" false "home"
          ("proj", FSEntry.dir (FSListing.cons "run_jarvis.sh" (FSEntry.file "x") FSListing.nil))).1) =
      ((rename_paths "kbe_pay" "autobots_kbe_pay" false "home"
          ("proj", FSEntry.dir (FSListing.cons "run_jarvis.sh" (FSEntry.file "x") FSListing.nil))).1,
        false) :=
  c5_amended "kbe_pay" "autobots_kbe_pay" "home"
    ("proj", FSEntry.dir (FSListing.cons "run_jarvis.sh" (FSEntry.file "x") FSListing.nil))
    (by decide)

/-! ## C9 -/

theorem replaceListing_lookupName (reps : List (String × String)) (dry : Bool) :
    ∀ (cs : FSListing) (n : String),
      lookupName (replaceListing reps dry cs) n =
        match lookupName cs n with
        | none => none
        | some (FSEntry.file c) =>
          some (FSEntry.file
            (if is_binary n then c else if dry then c else apply_replacements c reps))
        | some (FSEntry.dir cs2) =>
          some (FSEntry.dir (if n ∈ SKIP_DIRS then cs2 else replaceListing reps dry cs2))
  | FSListing.nil, n => rfl
  | FSListing.cons m (FSEntry.file c) rest, n => by
    by_cases hmn : m = n
    · subst hmn
      rw [replaceListing, lookupName, lookupName, if_pos rfl, if_pos rfl]
    · rw [replaceListing, lookupName, lookupName, if_neg hmn, if_neg hmn,
        replaceListing_lookupName reps dry rest n]
  | FSListing.cons m (FSEntry.dir cs2) rest, n => by
    by_cases hmn : m = n
    · subst hmn
      rw [replaceListing, lookupName, lookupName, if_pos rfl, if_pos rfl]
    · rw [replaceListing, lookupName, lookupName, if_neg hmn, if_neg hmn,
        replaceListing_lookupName reps dry rest n]

theorem lookup_nil_eq : ∀ e : FSEntry, e.lookup [] = some e
  | FSEntry.file _ => rfl
  | FSEntry.dir _ => rfl

theorem lookup_file_cons (c : String) (n : String) (rest : List String) :
    (FSEntry.file c).lookup (n :: rest) = none := rfl

theorem lookup_dir_cons (cs : FSListing) (n : String) (rest : List String) :
    (FSEntry.dir cs).lookup (n :: rest) =
      match lookupName cs n with
      | some e => e.lookup rest
      | none => none := rfl

/-- C9: a file whose (case-insensitively lower-cased) extension is in the
fixed binary-extension set is never modified by the content rewriter: its
content is identical before and after `replace_in_files`, for every
replacement table, mode, tree, and location of the file. -/
theorem c9_binary_files_untouched (reps : List (String × String)) (dry : Bool) :
    ∀ (p : List String) (t : FSEntry) (n c : String),
      is_binary n = true → t.lookup (p ++ [n]) = some (FSEntry.file c) →
      (replace_in_files reps dry t).lookup (p ++ [n]) = some (FSEntry.file c)
  | p, FSEntry.file c0, n, c, hb, h => h
  | [], FSEntry.dir cs, n, c, hb, h => by
    rw [List.nil_append] at h ⊢
    rw [lookup_dir_cons] at h
    rw [replace_in_files, lookup_dir_cons, replaceListing_lookupName reps dry cs n]
    cases hl : lookupName cs n with
    | none => rw [hl] at h; exact h
    | some e =>
      rw [hl] at h
      cases e with
      | file c2 =>
        dsimp only at h ⊢
        rw [lookup_nil_eq] at h
        rw [lookup_nil_eq, hb]
        rw [if_pos rfl]
        exact h
      | dir cs2 =>
        dsimp only at h
        rw [lookup_nil_eq] at h
        cases h
  | q :: qs, FSEntry.dir cs, n, c, hb, h => by
    rw [List.cons_append] at h ⊢
    rw [lookup_dir_cons] at h
    rw [replace_in_files, lookup_dir_cons, replaceListing_lookupName reps dry cs q]
    cases hl : lookupName cs q with
    | none => rw [hl] at h; exact h
    | some e =>
      rw [hl] at h
      cases e with
      | file c2 =>
        dsimp only at h ⊢
        cases hq : qs ++ [n] with
        | nil => exact absurd hq (List.append_ne_nil_of_right_ne_nil qs (by simp))
        | cons a as =>
          rw [hq, lookup_file_cons] at h
          cases h
      | dir cs2 =>
        dsimp only at h ⊢
        by_cases hskip : q ∈ SKIP_DIRS
        · rw [if_pos hskip]
          exact h
        · rw [if_neg hskip]
          have h2 := c9_binary_files_untouched reps dry qs (FSEntry.dir cs2) n c hb h
          rw [replace_in_files] at h2
          exact h2

/-- C9 witness: a file `img.PNG` (upper-case variant of a listed extension)
containing the token keeps its exact content through a non-dry rewrite. -/
theorem c9_witness :
    (replace_in_files [("jarvis", "kbe_pay")] false
        (FSEntry.dir (FSListing.cons "assets"
          (FSEntry.dir (FSListing.cons "img.PNG" (FSEntry.file "jarvis bytes") FSListing.nil))
          FSListing.nil))).lookup (["assets"] ++ ["img.PNG"]) =
      some (FSEntry.file "jarvis bytes") :=
  c9_binary_files_untouched [("jarvis", "kbe_pay")] false ["assets"]
    (FSEntry.dir (FSListing.cons "assets"
      (FSEntry.dir (FSListing.cons "img.PNG" (FSEntry.file "jarvis bytes") FSListing.nil))
      FSListing.nil))
    "img.PNG" "jarvis bytes" (by decide) rfl

/-! ## C8 -/

/-- C8 counterexample: with the valid name `kbe-pay` but a tree that lacks
the template package directory `src/autobots_agents_jarvis`, the script
takes a second controlled early exit (the template-repo check of lines
271-276) after name validation has passed — so name-validation failure is
not the only fatal transition. -/
theorem c8_counterexample :
    pyRegexMatch "kbe-pay".data = true ∧
    scaffold ⟨"kbe-pay", none, none, 1337, false⟩ "home" "proj" (FSEntry.dir FSListing.nil) =
      (RunStatus.earlyExit
        "Error: scaffold.py must be run from a repo cloned from the autobots-agents-jarvis template.",
        "proj", FSEntry.dir FSListing.nil) :=
  ⟨by decide, rfl⟩

/-- C8 amended: the controlled early exits are exactly name validation and
the template-repo check; both happen before any mutation (the state at an
early exit is the input state), and for every invocation whose name passes
validation and whose tree contains the template package directory, the
script never terminates via a controlled early exit. -/
theorem c8_amended (args : Args) (parentName rootName : String) (t : FSEntry) :
    (∀ m, (scaffold args parentName rootName t).1 = RunStatus.earlyExit m →
        (scaffold args parentName rootName t).2 = (rootName, t)) ∧
    (pyRegexMatch args.name.data = true →
      ∀ cs, t.lookup ["src", "autobots_agents_jarvis"] = some (FSEntry.dir cs) →
        ∀ m, (scaffold args parentName rootName t).1 ≠ RunStatus.earlyExit m) := by
  constructor
  · intro m
    unfold scaffold
    cases hd : derive_names args.name with
    | error msg => intro _; rfl
    | ok names0 =>
      cases hl : t.lookup ["src", "autobots_agents_jarvis"] with
      | none => intro _; rfl
      | some e =>
        cases e with
        | file c => intro _; rfl
        | dir cs0 =>
          dsimp only
          repeat' split
          all_goals simp
  · intro hvalid cs hcs m
    unfold scaffold
    cases hd : derive_names args.name with
    | error msg =>
      unfold derive_names at hd
      rw [if_pos hvalid] at hd
      cases hd
    | ok names0 =>
      rw [hcs]
      dsimp only
      repeat' split
      all_goals simp

/-- C8 witness: an invalid-name run exits early with the input state
unchanged, and a valid run on a template tree does not exit early. -/
theorem c8_witness :
    (scaffold ⟨"Bad Name", none, none, 1337, false⟩ "home" "proj"
        (FSEntry.dir FSListing.nil)).2 = ("proj", FSEntry.dir FSListing.nil) ∧
    (scaffold ⟨"kbe-pay", none, none, 1337, true⟩ "home" "proj"
        (FSEntry.dir (FSListing.cons "src"
          (FSEntry.dir (FSListing.cons "autobots_agents_jarvis" (FSEntry.dir FSListing.nil)
            FSListing.nil)) FSListing.nil))).1 ≠
      RunStatus.earlyExit "anything" :=
  ⟨(c8_amended ⟨"Bad Name", none, none, 1337, false⟩ "home" "proj"
      (FSEntry.dir FSListing.nil)).1
      "Error: name \x27Bad Name\x27 must be lowercase with hyphens (e.g., \x27kbe-pay\x27, \x27my-app\x27)"
      rfl,
    (c8_amended ⟨"kbe-pay", none, none, 1337, true⟩ "home" "proj"
      (FSEntry.dir (FSListing.cons "src"
        (FSEntry.dir (FSListing.cons "autobots_agents_jarvis" (FSEntry.dir FSListing.nil)
          FSListing.nil)) FSListing.nil))).2
      (by decide) FSListing.nil rfl "anything"⟩

/-! ## C7: lemmas about `writeFile` -/

theorem lookupName_upsert_eq : ∀ (cs : FSListing) (n : String) (e : FSEntry),
    lookupName (upsertChild cs n e) n = some e
  | FSListing.nil, n, e => by rw [upsertChild, lookupName, if_pos rfl]
  | FSListing.cons m e0 rest, n, e => by
    by_cases hmn : m = n
    · rw [upsertChild, if_pos hmn, lookupName, if_pos rfl]
    · rw [upsertChild, if_neg hmn, lookupName, if_neg hmn, lookupName_upsert_eq rest n e]

theorem lookupName_upsert_ne : ∀ (cs : FSListing) (n : String) (e : FSEntry) (m : String),
    m ≠ n → lookupName (upsertChild cs n e) m = lookupName cs m
  | FSListing.nil, n, e, m, h => by
    rw [show lookupName (upsertChild FSListing.nil n e) m
        = if n = m then some e else lookupName FSListing.nil m from rfl,
      if_neg (fun hr => h hr.symm)]
  | FSListing.cons m0 e0 rest, n, e, m, h => by
    by_cases hm0 : m0 = n
    · subst hm0
      rw [upsertChild, if_pos rfl, lookupName, lookupName,
        if_neg (fun hr => h hr.symm), if_neg (fun hr => h hr.symm)]
    · rw [upsertChild, if_neg hm0, lookupName, lookupName]
      by_cases hm : m0 = m
      · rw [if_pos hm, if_pos hm]
      · rw [if_neg hm, if_neg hm, lookupName_upsert_ne rest n e m h]

theorem writeFile_dir_shape : ∀ (cs : FSListing) (q : List String) (c : String),
    ∃ cs2, writeFile (FSEntry.dir cs) q c = FSEntry.dir cs2
  | cs, [], c => ⟨cs, rfl⟩
  | cs, [n], c => ⟨upsertChild cs n (FSEntry.file c), rfl⟩
  | cs, n :: r :: rs, c => by
    rw [writeFile]
    cases lookupName cs n with
    | none => exact ⟨cs, rfl⟩
    | some e => exact ⟨upsertChild cs n (writeFile e (r :: rs) c), rfl⟩

theorem lookup_writeFile_self : ∀ (q : List String) (t : FSEntry) (c0 cNew : String),
    q ≠ [] → t.lookup q = some (FSEntry.file c0) →
    (writeFile t q cNew).lookup q = some (FSEntry.file cNew)
  | [], t, c0, cNew, hq0, h => absurd rfl hq0
  | n :: rest, FSEntry.file c, c0, cNew, hq0, h => by
    rw [lookup_file_cons] at h
    cases h
  | n :: rest, FSEntry.dir cs, c0, cNew, hq0, h => by
    rw [lookup_dir_cons] at h
    cases hl : lookupName cs n with
    | none => rw [hl] at h; cases h
    | some e =>
      rw [hl] at h
      dsimp only at h
      cases rest with
      | nil =>
        rw [writeFile, lookup_dir_cons, lookupName_upsert_eq]
        rfl
      | cons r rs =>
        rw [writeFile, hl, lookup_dir_cons, lookupName_upsert_eq]
        exact lookup_writeFile_self (r :: rs) e c0 cNew (by simp) h

theorem lookup_writeFile_other : ∀ (q : List String) (t : FSEntry) (c0 cNew : String)
    (p : List String) (cp : String),
    t.lookup q = some (FSEntry.file c0) → t.lookup p = some (FSEntry.file cp) → p ≠ q →
    (writeFile t q cNew).lookup p = some (FSEntry.file cp)
  | [], t, c0, cNew, p, cp, hq, hp, hne => by cases t <;> exact hp
  | n :: rest, FSEntry.file c, c0, cNew, p, cp, hq, hp, hne => by
    rw [lookup_file_cons] at hq
    cases hq
  | n :: rest, FSEntry.dir cs, c0, cNew, p, cp, hq, hp, hne => by
    rw [lookup_dir_cons] at hq
    cases hl : lookupName cs n with
    | none => rw [hl] at hq; cases hq
    | some e =>
      rw [hl] at hq
      dsimp only at hq
      cases p with
      | nil => rw [lookup_nil_eq] at hp; cases hp
      | cons m ps =>
        rw [lookup_dir_cons] at hp
        cases rest with
        | nil =>
          rw [lookup_nil_eq] at hq
          cases hq
          rw [writeFile, lookup_dir_cons]
          by_cases hmn : m = n
          · subst hmn
            rw [lookupName_upsert_eq]
            rw [hl] at hp
            dsimp only at hp
            cases ps with
            | nil =>
              rw [lookup_nil_eq] at hp
              cases hp
              exact absurd rfl hne
            | cons a as => rw [lookup_file_cons] at hp; cases hp
          · rw [lookupName_upsert_ne cs n _ m hmn]
            exact hp
        | cons r rs =>
          rw [writeFile, hl, lookup_dir_cons]
          by_cases hmn : m = n
          · subst hmn
            rw [lookupName_upsert_eq]
            rw [hl] at hp
            dsimp only at hp
            have hps : ps ≠ r :: rs := fun hh => hne (by rw [hh])
            exact lookup_writeFile_other (r :: rs) e c0 cNew ps cp hq hp hps
          · rw [lookupName_upsert_ne cs n _ m hmn]
            exact hp

theorem rglobChildren_last (target : String) :
    ∀ (cs : FSListing) (base : List String) (p : List String),
      p ∈ rglobChildren target cs base → p.getLastD "" = target
  | FSListing.nil, _, _, h => absurd h (List.not_mem_nil _)
  | FSListing.cons n (FSEntry.file c) rest, base, p, h => by
    rw [rglobChildren] at h
    rcases List.mem_append.mp h with h1 | h1
    · by_cases hnt : n = target
      · rw [if_pos hnt] at h1
        rcases List.mem_singleton.mp h1 with rfl
        rw [List.getLastD_concat, hnt]
      · rw [if_neg hnt] at h1
        exact absurd h1 (List.not_mem_nil _)
    · exact rglobChildren_last target rest base p h1
  | FSListing.cons n (FSEntry.dir cs2) rest, base, p, h => by
    rw [rglobChildren] at h
    rcases List.mem_append.mp h with h1 | h1
    · rcases List.mem_append.mp h1 with h2 | h2
      · by_cases hnt : n = target
        · rw [if_pos hnt] at h2
          rcases List.mem_singleton.mp h2 with rfl
          rw [List.getLastD_concat, hnt]
        · rw [if_neg hnt] at h2
          exact absurd h2 (List.not_mem_nil _)
      · exact rglobChildren_last target cs2 (base ++ [n]) p h2
    · exact rglobChildren_last target rest base p h1

theorem rglobChildren_upsert_file (target : String) :
    ∀ (cs : FSListing) (n : String) (c0 cNew : String) (base : List String),
      lookupName cs n = some (FSEntry.file c0) →
      rglobChildren target (upsertChild cs n (FSEntry.file cNew)) base =
        rglobChildren target cs base
  | FSListing.nil, n, c0, cNew, base, h => by rw [lookupName] at h; cases h
  | FSListing.cons m e rest, n, c0, cNew, base, h => by
    rw [lookupName] at h
    by_cases hmn : m = n
    · rw [if_pos hmn] at h
      cases h
      subst hmn
      rw [upsertChild, if_pos rfl, rglobChildren, rglobChildren]
    · rw [if_neg hmn] at h
      cases e with
      | file c =>
        rw [upsertChild, if_neg hmn, rglobChildren, rglobChildren,
          rglobChildren_upsert_file target rest n c0 cNew base h]
      | dir cs2 =>
        rw [upsertChild, if_neg hmn, rglobChildren, rglobChildren,
          rglobChildren_upsert_file target rest n c0 cNew base h]

theorem rglobChildren_upsert_dir (target : String) :
    ∀ (cs : FSListing) (n : String) (cs2 cs2w : FSListing) (base : List String),
      lookupName cs n = some (FSEntry.dir cs2) →
      (∀ base2, rglobChildren target cs2w base2 = rglobChildren target cs2 base2) →
      rglobChildren target (upsertChild cs n (FSEntry.dir cs2w)) base =
        rglobChildren target cs base
  | FSListing.nil, n, cs2, cs2w, base, h, _ => by rw [lookupName] at h; cases h
  | FSListing.cons m e rest, n, cs2, cs2w, base, h, hg => by
    rw [lookupName] at h
    by_cases hmn : m = n
    · rw [if_pos hmn] at h
      cases h
      subst hmn
      rw [upsertChild, if_pos rfl, rglobChildren, rglobChildren, hg]
    · rw [if_neg hmn] at h
      cases e with
      | file c =>
        rw [upsertChild, if_neg hmn, rglobChildren, rglobChildren,
          rglobChildren_upsert_dir target rest n cs2 cs2w base h hg]
      | dir csx =>
        rw [upsertChild, if_neg hmn, rglobChildren, rglobChildren,
          rglobChildren_upsert_dir target rest n cs2 cs2w base h hg]

theorem rglob_writeFile (target : String) :
    ∀ (q : List String) (t : FSEntry) (c0 cNew : String) (base : List String),
      t.lookup q = some (FSEntry.file c0) →
      rglobName target (writeFile t q cNew) base = rglobName target t base
  | [], t, c0, cNew, base, h => by
    rw [lookup_nil_eq] at h
    cases h
    rfl
  | n :: rest, FSEntry.file c, c0, cNew, base, h => by
    rw [lookup_file_cons] at h
    cases h
  | n :: rest, FSEntry.dir cs, c0, cNew, base, h => by
    rw [lookup_dir_cons] at h
    cases hl : lookupName cs n with
    | none =>
      rw [hl] at h
      cases h
    | some e =>
      rw [hl] at h
      dsimp only at h
      cases rest with
      | nil =>
        rw [lookup_nil_eq] at h
        cases h
        rw [writeFile, rglobName, rglobName]
        exact rglobChildren_upsert_file target cs n c0 cNew base hl
      | cons r rs =>
        cases e with
        | file c2 => rw [lookup_file_cons] at h; cases h
        | dir cs2 =>
          rw [writeFile, hl, rglobName, rglobName]
          obtain ⟨cs2w, hw⟩ := writeFile_dir_shape cs2 (r :: rs) cNew
          rw [hw]
          refine rglobChildren_upsert_dir target cs n cs2 cs2w base hl ?_
          intro base2
          have h2 := rglob_writeFile target (r :: rs) (FSEntry.dir cs2) c0 cNew base2 h
          rw [hw, rglobName, rglobName] at h2
          exact h2

theorem lookup_writeFile_none : ∀ (q : List String) (t : FSEntry) (c0 cNew : String)
    (p : List String),
    t.lookup q = some (FSEntry.file c0) → t.lookup p = none →
    (writeFile t q cNew).lookup p = none
  | [], t, c0, cNew, p, hq, hp => by cases t <;> exact hp
  | n :: rest, FSEntry.file c, c0, cNew, p, hq, hp => by
    rw [lookup_file_cons] at hq
    cases hq
  | n :: rest, FSEntry.dir cs, c0, cNew, p, hq, hp => by
    rw [lookup_dir_cons] at hq
    cases hl : lookupName cs n with
    | none => rw [hl] at hq; cases hq
    | some e =>
      rw [hl] at hq
      dsimp only at hq
      cases p with
      | nil => rw [lookup_nil_eq] at hp; cases hp
      | cons m ps =>
        rw [lookup_dir_cons] at hp
        cases rest with
        | nil =>
          rw [lookup_nil_eq] at hq
          cases hq
          rw [writeFile, lookup_dir_cons]
          by_cases hmn : m = n
          · subst hmn
            rw [lookupName_upsert_eq]
            rw [hl] at hp
            dsimp only at hp
            cases ps with
            | nil => rw [lookup_nil_eq] at hp; cases hp
            | cons a as => rfl
          · rw [lookupName_upsert_ne cs n _ m hmn]
            exact hp
        | cons r rs =>
          rw [writeFile, hl, lookup_dir_cons]
          by_cases hmn : m = n
          · subst hmn
            rw [lookupName_upsert_eq]
            rw [hl] at hp
            dsimp only at hp
            exact lookup_writeFile_none (r :: rs) e c0 cNew ps hq hp
          · rw [lookupName_upsert_ne cs n _ m hmn]
            exact hp

theorem runscript_name_ne (sn : String) : "run_" ++ sn ++ ".sh" ≠ "settings.py" := by
  intro h
  have h2 := congrArg String.data h
  rw [String.data_append, String.data_append] at h2
  rw [show "run_".data = ['r', 'u', 'n', '_'] from rfl] at h2
  rw [show "settings.py".data = ['s', 'e', 't', 't', 'i', 'n', 'g', 's', '.', 'p', 'y'] from rfl]
    at h2
  simp at h2

/-- Behaviour of the settings-file loop over a duplicate-free list of
nonempty file paths: it never aborts, rewrites the default-port literal in
each listed file, and leaves every other entry alone. -/
theorem settingsLoop_spec (portStr : String) :
    ∀ (ps : List (List String)) (t : FSEntry),
      (∀ p ∈ ps, p ≠ [] ∧ isFileAt t p = true) → ps.Nodup →
      (settingsLoop portStr ps t).2 = false ∧
      (∀ p c, p ∈ ps → t.lookup p = some (FSEntry.file c) →
        (settingsLoop portStr ps t).1.lookup p =
          some (FSEntry.file (pyReplace c "default=1337" ("default=" ++ portStr)))) ∧
      (∀ p c, t.lookup p = some (FSEntry.file c) → p ∉ ps →
        (settingsLoop portStr ps t).1.lookup p = some (FSEntry.file c)) ∧
      (∀ p, t.lookup p = none → (settingsLoop portStr ps t).1.lookup p = none)
  | [], t, _, _ => by
    refine ⟨rfl, ?_, ?_, ?_⟩
    · intro p c hp _; exact absurd hp (List.not_mem_nil p)
    · intro p c h _; exact h
    · intro p h; exact h
  | q :: rest, t, hfiles, hnd => by
    obtain ⟨hq0, hqf⟩ := hfiles q (List.mem_cons_self q rest)
    have hqnotin : q ∉ rest := (List.nodup_cons.mp hnd).1
    have hndr : rest.Nodup := (List.nodup_cons.mp hnd).2
    unfold isFileAt at hqf
    cases hql : t.lookup q with
    | none => rw [hql] at hqf; cases hqf
    | some e =>
      cases e with
      | dir cs => rw [hql] at hqf; cases hqf
      | file cq =>
        have hloop : settingsLoop portStr (q :: rest) t =
            settingsLoop portStr rest
              (writeFile t q (pyReplace cq "default=1337" ("default=" ++ portStr))) := by
          rw [settingsLoop, hql]
        have hself := lookup_writeFile_self q t cq
          (pyReplace cq "default=1337" ("default=" ++ portStr)) hq0 hql
        have hfiles2 : ∀ p ∈ rest, p ≠ [] ∧
            isFileAt (writeFile t q (pyReplace cq "default=1337" ("default=" ++ portStr)))
              p = true := by
          intro p hp
          obtain ⟨hp0, hpf⟩ := hfiles p (List.mem_cons_of_mem q hp)
          refine ⟨hp0, ?_⟩
          unfold isFileAt at hpf ⊢
          cases hpl : t.lookup p with
          | none => rw [hpl] at hpf; cases hpf
          | some e2 =>
            cases e2 with
            | dir cs => rw [hpl] at hpf; cases hpf
            | file cp =>
              rw [lookup_writeFile_other q t cq _ p cp hql hpl
                (fun hh => hqnotin (hh ▸ hp))]
        obtain ⟨ih1, ih2, ih3, ih4⟩ := settingsLoop_spec portStr rest
          (writeFile t q (pyReplace cq "default=1337" ("default=" ++ portStr))) hfiles2 hndr
        rw [hloop]
        refine ⟨ih1, ?_, ?_, ?_⟩
        · intro p c hp hlook
          rcases List.mem_cons.mp hp with rfl | hp2
          · rw [hql] at hlook
            cases hlook
            exact ih3 p _ hself hqnotin
          · have hpq : p ≠ q := fun hh => hqnotin (hh ▸ hp2)
            exact ih2 p c hp2 (lookup_writeFile_other q t cq _ p c hql hlook hpq)
        · intro p c hlook hnot
          have hpq : p ≠ q := fun hh => hnot (hh ▸ List.mem_cons_self q rest)
          exact ih3 p c (lookup_writeFile_other q t cq _ p c hql hlook hpq)
            (fun hh => hnot (List.mem_cons_of_mem q hh))
        · intro p hlook
          exact ih4 p (lookup_writeFile_none q t cq _ p hql hlook)

/-- Behaviour of the settings-loop-plus-run-script part of the port
override. -/
theorem postPortAfterMakefile_spec (sn portStr : String) (t1 : FSEntry)
    (hS1 : ∀ p ∈ rglobName "settings.py" t1 [], isFileAt t1 p = true)
    (hN1 : (rglobName "settings.py" t1 []).Nodup)
    (hR1 : isDirAt t1 ["sbin", "run_" ++ sn ++ ".sh"] = false) :
    (postPortAfterMakefile sn portStr t1).2 = false ∧
    (∀ p c, p ∈ rglobName "settings.py" t1 [] → t1.lookup p = some (FSEntry.file c) →
      (postPortAfterMakefile sn portStr t1).1.lookup p =
        some (FSEntry.file (pyReplace c "default=1337" ("default=" ++ portStr)))) ∧
    (∀ c, t1.lookup ["sbin", "run_" ++ sn ++ ".sh"] = some (FSEntry.file c) →
      (postPortAfterMakefile sn portStr t1).1.lookup ["sbin", "run_" ++ sn ++ ".sh"] =
        some (FSEntry.file (pyReplace c "PORT:-1337" ("PORT:-" ++ portStr)))) ∧
    (∀ p c, t1.lookup p = some (FSEntry.file c) → p ∉ rglobName "settings.py" t1 [] →
      p ≠ ["sbin", "run_" ++ sn ++ ".sh"] →
      (postPortAfterMakefile sn portStr t1).1.lookup p = some (FSEntry.file c)) := by
  have hlast : ∀ p ∈ rglobName "settings.py" t1 [], p.getLastD "" = "settings.py" := by
    intro p hp
    cases ht : t1 with
    | file c => rw [ht] at hp; exact absurd hp (List.not_mem_nil p)
    | dir cs =>
      rw [ht] at hp
      exact rglobChildren_last "settings.py" cs [] p hp
  have hfiles : ∀ p ∈ rglobName "settings.py" t1 [], p ≠ [] ∧ isFileAt t1 p = true := by
    intro p hp
    refine ⟨?_, hS1 p hp⟩
    intro hnil
    have := hlast p hp
    rw [hnil] at this
    exact absurd this (by decide)
  have hrs_notin : ["sbin", "run_" ++ sn ++ ".sh"] ∉ rglobName "settings.py" t1 [] := by
    intro hmem
    have := hlast _ hmem
    rw [show (["sbin", "run_" ++ sn ++ ".sh"] : List String).getLastD ""
        = "run_" ++ sn ++ ".sh" from rfl] at this
    exact runscript_name_ne sn this
  obtain ⟨l1, l2, l3, l4⟩ :=
    settingsLoop_spec portStr (rglobName "settings.py" t1 []) t1 hfiles hN1
  unfold postPortAfterMakefile
  cases hsl : settingsLoop portStr (rglobName "settings.py" t1 []) t1 with
  | mk t2 b =>
    rw [hsl] at l1 l2 l3 l4
    dsimp only at l1 l2 l3 l4
    subst l1
    dsimp only
    unfold isDirAt at hR1
    cases hrs : t1.lookup ["sbin", "run_" ++ sn ++ ".sh"] with
    | none =>
      rw [l4 _ hrs]
      refine ⟨rfl, ?_, ?_, ?_⟩
      · intro p c hp hlook
        exact l2 p c hp hlook
      · intro c hlook
        cases hlook
      · intro p c hlook hnot _
        exact l3 p c hlook hnot
    | some e =>
      cases e with
      | dir cs => rw [hrs] at hR1; cases hR1
      | file cr =>
        have ht2rs := l3 _ cr hrs hrs_notin
        rw [ht2rs]
        have hrs0 : (["sbin", "run_" ++ sn ++ ".sh"] : List String) ≠ [] := by simp
        refine ⟨rfl, ?_, ?_, ?_⟩
        · intro p c hp hlook
          have hpne : p ≠ ["sbin", "run_" ++ sn ++ ".sh"] := by
            intro hh
            exact hrs_notin (hh ▸ hp)
          exact lookup_writeFile_other _ t2 cr _ p _ ht2rs (l2 p c hp hlook) hpne
        · intro c hlook
          cases hlook
          exact lookup_writeFile_self _ t2 cr _ hrs0 ht2rs
        · intro p c hlook hnot hpne
          exact lookup_writeFile_other _ t2 cr _ p _ ht2rs (l3 p c hlook hnot) hpne

theorem rglobName_last (target : String) (t : FSEntry) :
    ∀ p ∈ rglobName target t [], p.getLastD "" = target := by
  intro p hp
  cases t with
  | file c => exact absurd hp (List.not_mem_nil p)
  | dir cs => exact rglobChildren_last target cs [] p hp

theorem strContains_pyReplace_present (c old new : String) (hold : old.data ≠ [])
    (h : strContains c old = true) : strContains (pyReplace c old new) new = true := by
  unfold strContains at h ⊢
  rw [decide_eq_true_eq] at h ⊢
  exact pyReplace_occ_has_new c old new hold h

theorem strContains_pyReplace_absent (c old new : String) (hold : old.data ≠ [])
    (h : strContains c old = false) : pyReplace c old new = c := by
  unfold strContains at h
  rw [decide_eq_false_iff_not] at h
  exact pyReplace_no_occ c old new hold h

/-- C7: behaviour of the port override.  When the supplied port is the
default 1337 no rewrite is performed at all.  For any other port, over a
tree whose Makefile, settings entries and run-script are files (reading a
directory there would abort the run) and whose settings paths carry no
duplicates: the step completes, every `settings.py` file has its
`default=1337` literal replaced (so a file that contained it contains
`default=<port>` afterwards, and one that did not is unchanged), a Makefile
has its `CHAINLIT_PORT = 1337` literal replaced, the generated run-script
has its `PORT:-1337` literal replaced, and every other file keeps its exact
content. -/
theorem c7_port_override (sn : String) (t : FSEntry) (port : Int)
    (hport : ¬ port = 1337)
    (hM : isDirAt t ["Makefile"] = false)
    (hS : ∀ p ∈ rglobName "settings.py" t [], isFileAt t p = true)
    (hN : (rglobName "settings.py" t []).Nodup)
    (hR : isDirAt t ["sbin", "run_" ++ sn ++ ".sh"] = false) :
    postPort sn 1337 t = (t, false) ∧
    (postPort sn port t).2 = false ∧
    (∀ p c, p ∈ rglobName "settings.py" t [] → t.lookup p = some (FSEntry.file c) →
      (postPort sn port t).1.lookup p =
        some (FSEntry.file (pyReplace c "default=1337" ("default=" ++ toString port))) ∧
      (strContains c "default=1337" = true →
        strContains (pyReplace c "default=1337" ("default=" ++ toString port))
          ("default=" ++ toString port) = true) ∧
      (strContains c "default=1337" = false →
        pyReplace c "default=1337" ("default=" ++ toString port) = c)) ∧
    (∀ c, t.lookup ["Makefile"] = some (FSEntry.file c) →
      (postPort sn port t).1.lookup ["Makefile"] =
        some (FSEntry.file
          (pyReplace c "CHAINLIT_PORT = 1337" ("CHAINLIT_PORT = " ++ toString port)))) ∧
    (∀ c, t.lookup ["sbin", "run_" ++ sn ++ ".sh"] = some (FSEntry.file c) →
      (postPort sn port t).1.lookup ["sbin", "run_" ++ sn ++ ".sh"] =
        some (FSEntry.file (pyReplace c "PORT:-1337" ("PORT:-" ++ toString port)))) ∧
    (∀ p c, t.lookup p = some (FSEntry.file c) → p ∉ rglobName "settings.py" t [] →
      p ≠ ["Makefile"] → p ≠ ["sbin", "run_" ++ sn ++ ".sh"] →
      (postPort sn port t).1.lookup p = some (FSEntry.file c)) := by
  have hMne : ∀ p ∈ rglobName "settings.py" t [], p ≠ ["Makefile"] := by
    intro p hp hh
    have := rglobName_last "settings.py" t p hp
    rw [hh] at this
    exact absurd this (by decide)
  have hrsne : (["sbin", "run_" ++ sn ++ ".sh"] : List String) ≠ ["Makefile"] := by simp
  refine ⟨by unfold postPort; rw [if_pos rfl], ?_⟩
  unfold postPort
  rw [if_neg hport]
  unfold isDirAt at hM
  cases hMk : t.lookup ["Makefile"] with
  | some e =>
    cases e with
    | dir cs => rw [hMk] at hM; cases hM
    | file cM =>
      dsimp only
      have hMnil : (["Makefile"] : List String) ≠ [] := by simp
      have hself := lookup_writeFile_self ["Makefile"] t cM
        (pyReplace cM "CHAINLIT_PORT = 1337" ("CHAINLIT_PORT = " ++ toString port)) hMnil hMk
      have hrg := rglob_writeFile "settings.py" ["Makefile"] t cM
        (pyReplace cM "CHAINLIT_PORT = 1337" ("CHAINLIT_PORT = " ++ toString port)) [] hMk
      have hS1 : ∀ p ∈ rglobName "settings.py"
          (writeFile t ["Makefile"]
            (pyReplace cM "CHAINLIT_PORT = 1337" ("CHAINLIT_PORT = " ++ toString port))) [],
          isFileAt (writeFile t ["Makefile"]
            (pyReplace cM "CHAINLIT_PORT = 1337" ("CHAINLIT_PORT = " ++ toString port))) p
            = true := by
        intro p hp
        rw [hrg] at hp
        have := hS p hp
        unfold isFileAt at this ⊢
        cases hpl : t.lookup p with
        | none => rw [hpl] at this; cases this
        | some e2 =>
          cases e2 with
          | dir cs2 => rw [hpl] at this; cases this
          | file cp =>
            rw [lookup_writeFile_other ["Makefile"] t cM _ p cp hMk hpl (hMne p hp)]
      have hR1 : isDirAt (writeFile t ["Makefile"]
          (pyReplace cM "CHAINLIT_PORT = 1337" ("CHAINLIT_PORT = " ++ toString port)))
          ["sbin", "run_" ++ sn ++ ".sh"] = false := by
        unfold isDirAt at hR ⊢
        cases hrl : t.lookup ["sbin", "run_" ++ sn ++ ".sh"] with
        | none => rw [lookup_writeFile_none ["Makefile"] t cM _ _ hMk hrl]
        | some e2 =>
          cases e2 with
          | dir cs2 => rw [hrl] at hR; cases hR
          | file cr =>
            rw [lookup_writeFile_other ["Makefile"] t cM _ _ cr hMk hrl hrsne]
      obtain ⟨m1, m2, m3, m4⟩ := postPortAfterMakefile_spec sn (toString port)
        (writeFile t ["Makefile"]
          (pyReplace cM "CHAINLIT_PORT = 1337" ("CHAINLIT_PORT = " ++ toString port)))
        hS1 (by rw [hrg]; exact hN) hR1
      refine ⟨m1, ?_, ?_, ?_, ?_⟩
      · intro p c hp hlook
        refine ⟨?_,
          fun hc => strContains_pyReplace_present c _ _ (by decide) hc,
          fun hc => strContains_pyReplace_absent c _ _ (by decide) hc⟩
        exact m2 p c (by rw [hrg]; exact hp)
          (lookup_writeFile_other ["Makefile"] t cM _ p c hMk hlook (hMne p hp))
      · intro c hlook
        cases hlook
        refine m4 ["Makefile"] _ hself ?_ hrsne.symm
        rw [hrg]
        intro hmem
        exact hMne _ hmem rfl
      · intro c hlook
        exact m3 c (lookup_writeFile_other ["Makefile"] t cM _ _ c hMk hlook hrsne)
      · intro p c hlook hnot hpM hprs
        refine m4 p c (lookup_writeFile_other ["Makefile"] t cM _ p c hMk hlook hpM) ?_ hprs
        rw [hrg]
        exact hnot
  | none =>
    dsimp only
    obtain ⟨m1, m2, m3, m4⟩ := postPortAfterMakefile_spec sn (toString port) t hS hN hR
    refine ⟨m1, ?_, ?_, ?_, ?_⟩
    · intro p c hp hlook
      exact ⟨m2 p c hp hlook,
        fun hc => strContains_pyReplace_present c _ _ (by decide) hc,
        fun hc => strContains_pyReplace_absent c _ _ (by decide) hc⟩
    · intro c hlook
      cases hlook
    · intro c hlook
      exact m3 c hlook
    · intro p c hlook hnot hpM hprs
      exact m4 p c hlook hnot hprs

/-- C7 witness: a concrete run with `--port 8080` over `c7tree`: the port
literals of the settings file, the Makefile and the run-script are
rewritten, the unrelated file is untouched, and with the default port the
step does nothing. -/
theorem c7_witness :
    postPort "kbe_pay" 1337 c7tree = (c7tree, false) ∧
    (postPort "kbe_pay" 8080 c7tree).2 = false ∧
    (postPort "kbe_pay" 8080 c7tree).1.lookup ["src", "configs", "settings.py"] =
      some (FSEntry.file "default=8080") ∧
    (postPort "kbe_pay" 8080 c7tree).1.lookup ["Makefile"] =
      some (FSEntry.file "CHAINLIT_PORT = 8080") ∧
    (postPort "kbe_pay" 8080 c7tree).1.lookup ["sbin", "run_kbe_pay.sh"] =
      some (FSEntry.file "PORT:-8080") ∧
    (postPort "kbe_pay" 8080 c7tree).1.lookup ["README.md"] =
      some (FSEntry.file "no ports here") := by
  have h := c7_port_override "kbe_pay" c7tree 8080 (by decide) (by decide)
    (by decide) (by decide) (by decide)
  refine ⟨h.1, h.2.1, ?_, ?_, ?_, ?_⟩
  · exact (h.2.2.1 ["src", "configs", "settings.py"] "default=1337" (by decide) rfl).1
  · exact h.2.2.2.1 "CHAINLIT_PORT = 1337" rfl
  · exact h.2.2.2.2.1 "PORT:-1337" rfl
  · exact h.2.2.2.2.2 ["README.md"] "no ports here" rfl (by decide) (by decide) (by decide)

/-! ## C6: lemmas about protected directories -/

theorem lookup_cons_eq (t : FSEntry) (d : String) (rest : List String) :
    t.lookup (d :: rest) = (t.lookup [d]).bind (fun ed => FSEntry.lookup ed rest) := by
  cases t with
  | file c => rfl
  | dir cs =>
    rw [lookup_dir_cons, lookup_dir_cons]
    cases lookupName cs d with
    | none => rfl
    | some ed => cases ed <;> rfl

theorem lookupName_removeChild_ne : ∀ (cs : FSListing) (n m : String), m ≠ n →
    lookupName (removeChild cs n) m = lookupName cs m
  | FSListing.nil, n, m, h => rfl
  | FSListing.cons m0 e0 rest, n, m, h => by
    by_cases hm0 : m0 = n
    · rw [removeChild, if_pos hm0, lookupName,
        if_neg (fun hr => h (hr.symm.trans hm0)), lookupName_removeChild_ne rest n m h]
    · rw [removeChild, if_neg hm0, lookupName, lookupName]
      by_cases hm : m0 = m
      · rw [if_pos hm, if_pos hm]
      · rw [if_neg hm, if_neg hm, lookupName_removeChild_ne rest n m h]

theorem lookup_removePath_head_ne : ∀ (p : List String) (t : FSEntry) (d : String),
    p.headD "" ≠ d → p ≠ [] →
    ∀ rest, (removePath t p).lookup (d :: rest) = t.lookup (d :: rest)
  | [], t, d, hh, hnil, rest => absurd rfl hnil
  | a :: as, FSEntry.file c, d, hh, hnil, rest => rfl
  | a :: as, FSEntry.dir cs, d, hh, hnil, rest => by
    have had : a ≠ d := hh
    cases as with
    | nil =>
      rw [removePath, lookup_dir_cons, lookup_dir_cons,
        lookupName_removeChild_ne cs a d (fun hr => had hr.symm)]
    | cons b bs =>
      rw [removePath]
      cases hl : lookupName cs a with
      | none => rfl
      | some e =>
        rw [lookup_dir_cons, lookup_dir_cons,
          lookupName_upsert_ne cs a _ d (fun hr => had hr.symm)]

theorem lookup_writeFile_head_ne : ∀ (q : List String) (t : FSEntry) (c : String) (d : String),
    q.headD "" ≠ d → q ≠ [] →
    ∀ rest, (writeFile t q c).lookup (d :: rest) = t.lookup (d :: rest)
  | [], t, c, d, hh, hnil, rest => absurd rfl hnil
  | a :: as, FSEntry.file c0, c, d, hh, hnil, rest => rfl
  | a :: as, FSEntry.dir cs, c, d, hh, hnil, rest => by
    have had : a ≠ d := hh
    cases as with
    | nil =>
      rw [writeFile, lookup_dir_cons, lookup_dir_cons,
        lookupName_upsert_ne cs a _ d (fun hr => had hr.symm)]
    | cons b bs =>
      rw [writeFile]
      cases hl : lookupName cs a with
      | none => rfl
      | some e =>
        rw [lookup_dir_cons, lookup_dir_cons,
          lookupName_upsert_ne cs a _ d (fun hr => had hr.symm)]

theorem containsNameL_of_lookupName : ∀ (cs : FSListing) (n : String) (e : FSEntry),
    lookupName cs n = some e → containsNameL n cs = true
  | FSListing.nil, n, e, h => by rw [lookupName] at h; cases h
  | FSListing.cons m e0 rest, n, e, h => by
    rw [lookupName] at h
    by_cases hm : m = n
    · cases e0 with
      | file c => rw [containsNameL, hm]; simp
      | dir cs2 => rw [containsNameL, hm]; simp
    · rw [if_neg hm] at h
      cases e0 with
      | file c =>
        rw [containsNameL, containsNameL_of_lookupName rest n e h]
        simp
      | dir cs2 =>
        rw [containsNameL, containsNameL_of_lookupName rest n e h]
        simp

theorem containsNameL_of_child : ∀ (cs : FSListing) (q : String) (cs2 : FSListing)
    (target : String),
    lookupName cs q = some (FSEntry.dir cs2) → containsNameL target cs2 = true →
    containsNameL target cs = true
  | FSListing.nil, q, cs2, target, h, _ => by rw [lookupName] at h; cases h
  | FSListing.cons m e0 rest, q, cs2, target, h, hc => by
    rw [lookupName] at h
    by_cases hm : m = q
    · rw [if_pos hm] at h
      cases h
      rw [containsNameL, hc]
      simp
    · rw [if_neg hm] at h
      cases e0 with
      | file c =>
        rw [containsNameL, containsNameL_of_child rest q cs2 target h hc]
        simp
      | dir csx =>
        rw [containsNameL, containsNameL_of_child rest q cs2 target h hc]
        simp

theorem containsNameL_of_lookup : ∀ (rest : List String) (cs : FSListing) (e : FSEntry),
    rest ≠ [] → (FSEntry.dir cs).lookup rest = some e →
    containsNameL (rest.getLastD "") cs = true
  | [], cs, e, hnil, h => absurd rfl hnil
  | [n], cs, e, hnil, h => by
    rw [lookup_dir_cons] at h
    cases hl : lookupName cs n with
    | none => rw [hl] at h; cases h
    | some e2 =>
      rw [show ([n] : List String).getLastD "" = n from rfl]
      exact containsNameL_of_lookupName cs n e2 hl
  | q :: r :: rs, cs, e, hnil, h => by
    rw [lookup_dir_cons] at h
    cases hl : lookupName cs q with
    | none => rw [hl] at h; cases h
    | some e2 =>
      rw [hl] at h
      dsimp only at h
      cases e2 with
      | file c => rw [lookup_file_cons] at h; cases h
      | dir cs2 =>
        have hc := containsNameL_of_lookup (r :: rs) cs2 e (by simp) h
        rw [show ((q :: r :: rs) : List String).getLastD "" = (r :: rs).getLastD "" from rfl]
        exact containsNameL_of_child cs q cs2 _ hl hc

theorem lookup_singleton (cs : FSListing) (d : String) :
    (FSEntry.dir cs).lookup [d] = lookupName cs d := by
  rw [lookup_dir_cons]
  cases lookupName cs d with
  | none => rfl
  | some e => exact lookup_nil_eq e

theorem removeIfExists_head_ne (t : FSEntry) (p : List String) (d : String)
    (hh : p.headD "" ≠ d) (hnil : p ≠ []) (dry : Bool) :
    ∀ rest, (removeIfExists dry t p).lookup (d :: rest) = t.lookup (d :: rest) := by
  intro rest
  unfold removeIfExists
  by_cases hex : (t.lookup p).isSome = true
  · rw [if_pos hex]
    cases dry with
    | true => rfl
    | false => exact lookup_removePath_head_ne p t d hh hnil rest
  · rw [if_neg hex]

theorem foldl_removeIfExists_head_ne (d : String) (dry : Bool) :
    ∀ (l : List (List String)) (t : FSEntry),
      (∀ p ∈ l, p ≠ [] ∧ p.headD "" ≠ d) →
      ∀ rest, (l.foldl (removeIfExists dry) t).lookup (d :: rest) = t.lookup (d :: rest)
  | [], t, _, rest => rfl
  | p :: ps, t, h, rest => by
    rw [List.foldl_cons,
      foldl_removeIfExists_head_ne d dry ps (removeIfExists dry t p)
        (fun q hq => h q (List.mem_cons_of_mem p hq)) rest,
      removeIfExists_head_ne t p d (h p (List.mem_cons_self p ps)).2
        (h p (List.mem_cons_self p ps)).1 dry rest]

theorem clean_artifacts_protected (d : String) (hd : d ∈ SKIP_DIRS) (dry : Bool) (t : FSEntry) :
    ∀ rest, (clean_artifacts dry t).lookup (d :: rest) = t.lookup (d :: rest) := by
  apply foldl_removeIfExists_head_ne
  intro p hp
  have h1 := (show ∀ p ∈ ARTIFACTS_TO_CLEAN, p ≠ [] ∧ p.headD "" ∉ SKIP_DIRS by decide) p hp
  exact ⟨h1.1, fun hh => h1.2 (hh ▸ hd)⟩

theorem remove_demo_content_protected (d : String) (hd : d ∈ SKIP_DIRS) (dry : Bool)
    (t : FSEntry) :
    ∀ rest, (remove_demo_content dry t).lookup (d :: rest) = t.lookup (d :: rest) := by
  apply foldl_removeIfExists_head_ne
  intro p hp
  have h1 := (show ∀ p ∈ PATHS_TO_REMOVE, p ≠ [] ∧ p.headD "" ∉ SKIP_DIRS by decide) p hp
  exact ⟨h1.1, fun hh => h1.2 (hh ▸ hd)⟩

theorem replace_in_files_protected (reps : List (String × String)) (dry : Bool) (t : FSEntry)
    (d : String) (hd : d ∈ SKIP_DIRS) (cs : FSListing)
    (hcs : t.lookup [d] = some (FSEntry.dir cs)) :
    ∀ rest, (replace_in_files reps dry t).lookup (d :: rest) = t.lookup (d :: rest) := by
  intro rest
  cases t with
  | file c => rfl
  | dir cs0 =>
    rw [lookup_singleton] at hcs
    rw [replace_in_files, lookup_dir_cons, lookup_dir_cons,
      replaceListing_lookupName reps dry cs0 d, hcs]
    dsimp only
    rw [if_pos hd]

theorem jarvis_name_not_skip (f : String) (h : strContains f "jarvis" = true) :
    f ∉ SKIP_DIRS := by
  intro hf
  simp only [SKIP_DIRS, List.mem_cons, List.not_mem_nil, or_false] at hf
  rcases hf with rfl | rfl | rfl | rfl <;> exact absurd h (by decide)

theorem hasSkipComponent_append_false (path : List String) (n : String)
    (h : hasSkipComponent (path ++ [n]) = false) :
    hasSkipComponent path = false ∧ n ∉ SKIP_DIRS := by
  unfold hasSkipComponent at h ⊢
  rw [List.any_append] at h
  rcases Bool.or_eq_false_iff.mp h with ⟨h1, h2⟩
  refine ⟨h1, ?_⟩
  simp only [List.any_cons, List.any_nil, Bool.or_false] at h2
  exact of_decide_eq_false h2

theorem fileRenames_src (sn : String) : ∀ (cs : FSListing) (path : List String)
    (pr : List String × List String), pr ∈ fileRenames sn path cs →
    ∃ fname, pr.1 = path ++ [fname] ∧ strContains fname "jarvis" = true
  | FSListing.nil, path, pr, h => absurd h (List.not_mem_nil pr)
  | FSListing.cons n (FSEntry.file c) rest, path, pr, h => by
    rw [fileRenames] at h
    rcases List.mem_append.mp h with h1 | h1
    · by_cases hc : strContains n "jarvis" = true
      · rw [if_pos hc] at h1
        rcases List.mem_singleton.mp h1 with rfl
        exact ⟨n, rfl, hc⟩
      · rw [if_neg hc] at h1
        exact absurd h1 (List.not_mem_nil pr)
    · exact fileRenames_src sn rest path pr h1
  | FSListing.cons n (FSEntry.dir cs2) rest, path, pr, h => by
    rw [fileRenames] at h
    exact fileRenames_src sn rest path pr h

theorem dirSelfRename_src (pkg sn pn name : String) (path2 : List String)
    (pr : List String × List String) (h : pr ∈ dirSelfRename pkg sn pn name path2) :
    pr.1 = path2 ∧ (name = "autobots_agents_jarvis" ∨ name = "jarvis") := by
  unfold dirSelfRename at h
  by_cases h1 : name = "autobots_agents_jarvis"
  · rw [if_pos h1] at h
    rcases List.mem_singleton.mp h with rfl
    exact ⟨rfl, Or.inl h1⟩
  · rw [if_neg h1] at h
    by_cases h2 : name = "jarvis" ∧ (pn = "domains" ∨ pn = "agent_configs")
    · rw [if_pos h2] at h
      rcases List.mem_singleton.mp h with rfl
      exact ⟨rfl, Or.inr h2.1⟩
    · rw [if_neg h2] at h
      exact absurd h (List.not_mem_nil pr)

theorem walkChildren_src (sn pkg : String) :
    ∀ (cs : FSListing) (dirName : String) (path : List String)
      (pr : List String × List String), pr ∈ walkChildren sn pkg dirName path cs →
      pr.1 ≠ [] ∧ hasSkipComponent pr.1.dropLast = false ∧ pr.1.getLastD "" ∉ SKIP_DIRS
  | FSListing.nil, dirName, path, pr, h => absurd h (List.not_mem_nil pr)
  | FSListing.cons n (FSEntry.file c) rest, dirName, path, pr, h => by
    rw [walkChildren] at h
    exact walkChildren_src sn pkg rest dirName path pr h
  | FSListing.cons n (FSEntry.dir cs2) rest, dirName, path, pr, h => by
    rw [walkChildren] at h
    rcases List.mem_append.mp h with h1 | h1
    · rcases List.mem_append.mp h1 with h2 | h2
      · exact walkChildren_src sn pkg cs2 n (path ++ [n]) pr h2
      · by_cases hskip : hasSkipComponent (path ++ [n]) = true
        · rw [if_pos hskip] at h2
          exact absurd h2 (List.not_mem_nil pr)
        · have hskip2 : hasSkipComponent (path ++ [n]) = false :=
            Bool.eq_false_iff.mpr hskip
          rw [if_neg hskip] at h2
          obtain ⟨hpath, hnskip⟩ := hasSkipComponent_append_false path n hskip2
          rcases List.mem_append.mp h2 with h3 | h3
          · obtain ⟨fname, hpr, hcont⟩ := fileRenames_src sn cs2 (path ++ [n]) pr h3
            rw [hpr]
            refine ⟨by simp, ?_, ?_⟩
            · rw [List.dropLast_concat]
              exact hskip2
            · rw [List.getLastD_concat]
              exact jarvis_name_not_skip fname hcont
          · obtain ⟨hpr, hname⟩ := dirSelfRename_src pkg sn dirName n (path ++ [n]) pr h3
            rw [hpr]
            refine ⟨by simp, ?_, ?_⟩
            · rw [List.dropLast_concat]
              exact hpath
            · rw [List.getLastD_concat]
              rcases hname with rfl | rfl <;> exact hnskip
    · exact walkChildren_src sn pkg rest dirName path pr h1

theorem computeRenames_src (sn pkg pn rn : String) (t : FSEntry) :
    ∀ pr ∈ computeRenames sn pkg pn rn t,
      pr.1 = [] ∨
      (pr.1 ≠ [] ∧ hasSkipComponent pr.1.dropLast = false ∧ pr.1.getLastD "" ∉ SKIP_DIRS) := by
  intro pr h
  cases t with
  | file c => exact absurd h (List.not_mem_nil pr)
  | dir cs =>
    rw [computeRenames] at h
    rcases List.mem_append.mp h with h1 | h1
    · exact Or.inr (walkChildren_src sn pkg cs rn [] pr h1)
    · rw [if_neg (by decide : ¬ hasSkipComponent [] = true)] at h1
      rcases List.mem_append.mp h1 with h2 | h2
      · obtain ⟨fname, hpr, hcont⟩ := fileRenames_src sn cs [] pr h2
        rw [hpr]
        refine Or.inr ⟨by simp, by simp [hasSkipComponent], ?_⟩
        rw [List.nil_append, show ([fname] : List String).getLastD "" = fname from rfl]
        exact jarvis_name_not_skip fname hcont
      · obtain ⟨hpr, _⟩ := dirSelfRename_src pkg sn pn rn [] pr h2
        exact Or.inl hpr

theorem src_headD (pr : List String × List String)
    (h : pr.1 ≠ [] ∧ hasSkipComponent pr.1.dropLast = false ∧ pr.1.getLastD "" ∉ SKIP_DIRS) :
    pr.1.headD "" ∉ SKIP_DIRS := by
  obtain ⟨h1, h2, h3⟩ := h
  cases hp : pr.1 with
  | nil => exact absurd hp h1
  | cons x xs =>
    cases xs with
    | nil =>
      rw [hp] at h3
      exact h3
    | cons y ys =>
      rw [hp] at h2
      rw [show ((x :: y :: ys) : List String).dropLast = x :: (y :: ys).dropLast from rfl]
        at h2
      unfold hasSkipComponent at h2
      rw [List.any_cons] at h2
      rcases Bool.or_eq_false_iff.mp h2 with ⟨hx, -⟩
      exact of_decide_eq_false hx

theorem renameInDir_lookupName_ne (cs : FSListing) (oldName newName d : String)
    (cs2 : FSListing) (hold : oldName ≠ d) (hnew : newName ≠ d)
    (h : renameInDir cs oldName newName = some cs2) :
    lookupName cs2 d = lookupName cs d := by
  unfold renameInDir at h
  cases hl : lookupName cs oldName with
  | none => rw [hl] at h; cases h
  | some src =>
    rw [hl] at h
    dsimp only at h
    have hfin : ∀ cs3, cs3 = upsertChild (removeChild cs oldName) newName src →
        lookupName cs3 d = lookupName cs d := by
      intro cs3 h3
      rw [h3, lookupName_upsert_ne _ newName src d (fun hr => hnew hr.symm),
        lookupName_removeChild_ne cs oldName d (fun hr => hold hr.symm)]
    cases hl2 : lookupName (removeChild cs oldName) newName with
    | none =>
      rw [hl2] at h
      have h3 : some (upsertChild (removeChild cs oldName) newName src) = some cs2 := h
      cases h3
      exact hfin _ rfl
    | some tgt =>
      rw [hl2] at h
      cases tgt with
      | file c =>
        cases src with
        | file c2 =>
          have h3 : some (upsertChild (removeChild cs oldName) newName (FSEntry.file c2))
              = some cs2 := h
          cases h3
          exact hfin _ rfl
        | dir scs =>
          have h3 : (none : Option FSListing) = some cs2 := h
          cases h3
      | dir tcs =>
        cases src with
        | file c2 =>
          have h3 : (none : Option FSListing) = some cs2 := h
          cases h3
        | dir scs =>
          have h3 : (if tcs.isEmptyL = true then
              some (upsertChild (removeChild cs oldName) newName (FSEntry.dir scs))
            else none) = some cs2 := h
          by_cases he : tcs.isEmptyL = true
          · rw [if_pos he] at h3
            cases h3
            exact hfin _ rfl
          · rw [if_neg he] at h3
            cases h3

theorem renameInDir_protected_empty (cs : FSListing) (oldName d : String)
    (csd : FSListing) (cs2 : FSListing) (hold : oldName ≠ d)
    (hd : lookupName cs d = some (FSEntry.dir csd))
    (h : renameInDir cs oldName d = some cs2) :
    csd = FSListing.nil := by
  unfold renameInDir at h
  cases hl : lookupName cs oldName with
  | none => rw [hl] at h; cases h
  | some src =>
    rw [hl] at h
    dsimp only at h
    have hc1 : lookupName (removeChild cs oldName) d = some (FSEntry.dir csd) := by
      rw [lookupName_removeChild_ne cs oldName d (fun hr => hold hr.symm)]
      exact hd
    rw [hc1] at h
    dsimp only at h
    cases src with
    | file c => cases h
    | dir scs =>
      cases hcsd : csd with
      | nil => rfl
      | cons a b c =>
        rw [hcsd] at h
        rw [if_neg (by rw [FSListing.isEmptyL]; simp)] at h
        cases h

theorem renameAt_deep_lookup (t : FSEntry) (q : String) (qs : List String)
    (oldName newName d : String) (t2 : FSEntry) (hq : q ≠ d)
    (h : renameAt t (q :: qs) oldName newName = some t2) :
    t2.lookup [d] = t.lookup [d] := by
  cases t with
  | file c => rw [renameAt] at h; cases h
  | dir cs =>
    rw [renameAt] at h
    cases hl : lookupName cs q with
    | none => rw [hl] at h; cases h
    | some child =>
      rw [hl] at h
      have h2 : Option.map (fun c2 => FSEntry.dir (upsertChild cs q c2))
          (renameAt child qs oldName newName) = some t2 := h
      cases hr : renameAt child qs oldName newName with
      | none =>
        rw [hr] at h2
        cases h2
      | some c2 =>
        rw [hr] at h2
        have h3 : some (FSEntry.dir (upsertChild cs q c2)) = some t2 := h2
        cases h3
        rw [lookup_singleton, lookup_singleton,
          lookupName_upsert_ne cs q c2 d (fun hr2 => hq hr2.symm)]

theorem renameAt_root_cases (cs : FSListing) (oldName newName d : String) (t2 : FSEntry)
    (hold : oldName ≠ d)
    (h : renameAt (FSEntry.dir cs) [] oldName newName = some t2) :
    (newName ≠ d → t2.lookup [d] = (FSEntry.dir cs).lookup [d]) ∧
    (∀ csd, newName = d → lookupName cs d = some (FSEntry.dir csd) → csd = FSListing.nil) := by
  rw [renameAt] at h
  cases hr : renameInDir cs oldName newName with
  | none => rw [hr] at h; cases h
  | some cs2 =>
    rw [hr] at h
    have h2 : some (FSEntry.dir cs2) = some t2 := h
    cases h2
    constructor
    · intro hnew
      rw [lookup_singleton, lookup_singleton,
        renameInDir_lookupName_ne cs oldName newName d cs2 hold hnew hr]
    · intro csd hnewd hdl
      subst hnewd
      exact renameInDir_protected_empty cs oldName newName csd cs2 hold hdl hr

theorem exec_protected (d : String) (hd : d ∈ SKIP_DIRS) (csd : FSListing) :
    ∀ (batch : List (List String × List String)) (st : String × FSEntry),
      (∀ pr ∈ batch, pr.1 = [] ∨
        (pr.1 ≠ [] ∧ hasSkipComponent pr.1.dropLast = false ∧
          pr.1.getLastD "" ∉ SKIP_DIRS)) →
      st.2.lookup [d] = some (FSEntry.dir csd) →
      (execRenames false batch st).1.2.lookup [d] = some (FSEntry.dir csd) ∨
        csd = FSListing.nil
  | [], st, _, hcs => Or.inl hcs
  | (o, n) :: rest, st, hsrc, hcs => by
    have hrest : ∀ pr ∈ rest, pr.1 = [] ∨
        (pr.1 ≠ [] ∧ hasSkipComponent pr.1.dropLast = false ∧
          pr.1.getLastD "" ∉ SKIP_DIRS) :=
      fun pr hp => hsrc pr (List.mem_cons_of_mem _ hp)
    rcases hsrc (o, n) (List.mem_cons_self _ rest) with ho | ⟨h1, h2, h3⟩
    · subst ho
      exact exec_protected d hd csd rest (n.getLastD st.1, st.2) hrest hcs
    · cases ho : o with
      | nil => exact absurd ho h1
      | cons x xs =>
        subst ho
        have hstep : execRenames false ((x :: xs, n) :: rest) st =
            (if (st.2.lookup (x :: xs)).isSome = true then
              match renameAt st.2 ((x :: xs).dropLast) ((x :: xs).getLastD "")
                  (n.getLastD "") with
              | some t2 => execRenames false rest (st.1, t2)
              | none => (st, true)
            else execRenames false rest st) := rfl
        rw [hstep]
        by_cases hex : (st.2.lookup (x :: xs)).isSome = true
        · rw [if_pos hex]
          cases hra : renameAt st.2 ((x :: xs).dropLast) ((x :: xs).getLastD "")
              (n.getLastD "") with
          | none => exact Or.inl hcs
          | some t2 =>
            have ht2 : t2.lookup [d] = some (FSEntry.dir csd) ∨ csd = FSListing.nil := by
              cases xs with
              | nil =>
                cases hst : st.2 with
                | file c =>
                  rw [hst] at hcs
                  cases hcs
                | dir cs0 =>
                  rw [hst] at hra
                  have hxd : x ≠ d := by
                    intro hh
                    rw [show (([x] : List String)).getLastD "" = x from rfl] at h3
                    exact h3 (hh ▸ hd)
                  have hcases := renameAt_root_cases cs0 x (n.getLastD "") d t2 hxd hra
                  by_cases hnew : n.getLastD "" = d
                  · rw [hst, lookup_singleton] at hcs
                    exact Or.inr (hcases.2 csd hnew hcs)
                  · rw [hcases.1 hnew, ← hst]
                    exact Or.inl hcs
              | cons y ys =>
                have hxd : x ≠ d := by
                  intro hh
                  rw [show ((x :: y :: ys) : List String).dropLast
                      = x :: (y :: ys).dropLast from rfl] at h2
                  unfold hasSkipComponent at h2
                  rw [List.any_cons] at h2
                  rcases Bool.or_eq_false_iff.mp h2 with ⟨hx, -⟩
                  exact of_decide_eq_false hx (hh ▸ hd)
                rw [renameAt_deep_lookup st.2 x ((y :: ys).dropLast) _ _ d t2 hxd hra]
                exact Or.inl hcs
            rcases ht2 with ht2 | ht2
            · exact exec_protected d hd csd rest (st.1, t2) hrest ht2
            · exact Or.inr ht2
        · rw [if_neg hex]
          exact exec_protected d hd csd rest st hrest hcs

theorem writeFile_nil (t : FSEntry) (c : String) : writeFile t [] c = t := by
  cases t <;> rfl

theorem getLastD_default_irrel {α : Type} : ∀ (l : List α) (a b : α), l ≠ [] →
    l.getLastD a = l.getLastD b
  | [], a, b, h => absurd rfl h
  | x :: xs, a, b, _ => rfl

theorem settingsLoop_protected (portStr : String) (d : String) (hdne : d ≠ "") :
    ∀ (ps : List (List String)) (t : FSEntry),
      (∀ p ∈ ps, p.headD "" = d → ∀ c, ¬ t.lookup p = some (FSEntry.file c)) →
      ∀ rest, (settingsLoop portStr ps t).1.lookup (d :: rest) = t.lookup (d :: rest)
  | [], t, _, rest => rfl
  | p :: ps2, t, hp, rest => by
    cases hpl : t.lookup p with
    | none =>
      have hstep : settingsLoop portStr (p :: ps2) t = (t, true) := by
        rw [settingsLoop, hpl]
      rw [hstep]
    | some e =>
      cases e with
      | dir cs =>
        have hstep : settingsLoop portStr (p :: ps2) t = (t, true) := by
          rw [settingsLoop, hpl]
        rw [hstep]
      | file c =>
        have hstep : settingsLoop portStr (p :: ps2) t =
            settingsLoop portStr ps2
              (writeFile t p (pyReplace c "default=1337" ("default=" ++ portStr))) := by
          rw [settingsLoop, hpl]
        rw [hstep]
        cases hp0 : p with
        | nil =>
          subst hp0
          rw [writeFile_nil]
          exact settingsLoop_protected portStr d hdne ps2 t
            (fun q hq => hp q (List.mem_cons_of_mem _ hq)) rest
        | cons x xs =>
          subst hp0
          have hpd : (x :: xs).headD "" ≠ d := fun hh =>
            hp (x :: xs) (List.mem_cons_self _ ps2) hh c hpl
          have hw := lookup_writeFile_head_ne (x :: xs) t
            (pyReplace c "default=1337" ("default=" ++ portStr)) d hpd (by simp)
          have htrans : ∀ q ∈ ps2, q.headD "" = d → ∀ cq,
              ¬ (writeFile t (x :: xs)
                  (pyReplace c "default=1337" ("default=" ++ portStr))).lookup q
                = some (FSEntry.file cq) := by
            intro q hq hqd cq hql
            cases q with
            | nil => exact hdne hqd.symm
            | cons y ys =>
              have hyd : y = d := hqd
              rw [hyd] at hql
              rw [hw ys] at hql
              rw [← hyd] at hql
              exact hp (y :: ys) (List.mem_cons_of_mem _ hq) hqd cq hql
          exact (settingsLoop_protected portStr d hdne ps2 _ htrans rest).trans (hw rest)

theorem postPortAfterMakefile_protected (sn portStr : String) (t1 : FSEntry) (d : String)
    (hd : d ∈ SKIP_DIRS) (cs : FSListing)
    (hdl : t1.lookup [d] = some (FSEntry.dir cs))
    (hset : containsNameL "settings.py" cs = false) :
    ∀ rest, ((postPortAfterMakefile sn portStr t1).1).lookup (d :: rest)
      = t1.lookup (d :: rest) := by
  have hdne : d ≠ "" := (show ∀ x ∈ SKIP_DIRS, x ≠ "" by decide) d hd
  have hhyp : ∀ p ∈ rglobName "settings.py" t1 [], p.headD "" = d →
      ∀ c, ¬ t1.lookup p = some (FSEntry.file c) := by
    intro p hp hpd c hpl
    cases p with
    | nil => exact hdne hpd.symm
    | cons y ys =>
      have hyd : y = d := hpd
      rw [hyd] at hpl
      rw [lookup_cons_eq, hdl] at hpl
      cases ys with
      | nil =>
        have hpl2 : some (FSEntry.dir cs) = some (FSEntry.file c) := hpl
        cases hpl2
      | cons z zs =>
        have hpl2 : (FSEntry.dir cs).lookup (z :: zs) = some (FSEntry.file c) := hpl
        have hc := containsNameL_of_lookup (z :: zs) cs (FSEntry.file c) (by simp) hpl2
        have hlast := rglobName_last "settings.py" t1 _ hp
        rw [hyd] at hlast
        rw [show ((d :: z :: zs) : List String).getLastD "" = (z :: zs).getLastD d from rfl]
          at hlast
        rw [getLastD_default_irrel (z :: zs) d "" (by simp)] at hlast
        rw [hlast] at hc
        rw [hc] at hset
        cases hset
  have hloop := settingsLoop_protected portStr d hdne
    (rglobName "settings.py" t1 []) t1 hhyp
  intro rest
  cases hsl : settingsLoop portStr (rglobName "settings.py" t1 []) t1 with
  | mk t2 b =>
    have hloop2 : ∀ r, t2.lookup (d :: r) = t1.lookup (d :: r) := by
      intro r
      have hx := hloop r
      rw [hsl] at hx
      exact hx
    cases b with
    | true =>
      have hstep : postPortAfterMakefile sn portStr t1 = (t2, true) := by
        unfold postPortAfterMakefile
        rw [hsl]
      rw [hstep]
      exact hloop2 rest
    | false =>
      have hstep : postPortAfterMakefile sn portStr t1 =
          (match t2.lookup ["sbin", "run_" ++ sn ++ ".sh"] with
           | some (FSEntry.dir _) => (t2, true)
           | some (FSEntry.file c) =>
             (writeFile t2 ["sbin", "run_" ++ sn ++ ".sh"]
               (pyReplace c "PORT:-1337" ("PORT:-" ++ portStr)), false)
           | none => (t2, false)) := by
        unfold postPortAfterMakefile
        rw [hsl]
      rw [hstep]
      cases hrs : t2.lookup ["sbin", "run_" ++ sn ++ ".sh"] with
      | none => exact hloop2 rest
      | some e =>
        cases e with
        | dir cs2 => exact hloop2 rest
        | file c =>
          have hsbin : (["sbin", "run_" ++ sn ++ ".sh"] : List String).headD "" ≠ d := by
            intro hh
            have hh2 : ("sbin" : String) = d := hh
            rw [← hh2] at hd
            exact (show ("sbin" : String) ∉ SKIP_DIRS by decide) hd
          have hw := lookup_writeFile_head_ne ["sbin", "run_" ++ sn ++ ".sh"] t2
            (pyReplace c "PORT:-1337" ("PORT:-" ++ portStr)) d hsbin (by simp)
          rw [hw rest]
          exact hloop2 rest

theorem postPort_protected (sn : String) (port : Int) (t : FSEntry) (d : String)
    (hd : d ∈ SKIP_DIRS) (cs : FSListing)
    (hdl : t.lookup [d] = some (FSEntry.dir cs))
    (hset : containsNameL "settings.py" cs = false) :
    ∀ rest, ((postPort sn port t).1).lookup (d :: rest) = t.lookup (d :: rest) := by
  intro rest
  by_cases hp : port = 1337
  · have hstep : postPort sn port t = (t, false) := by
      unfold postPort
      rw [if_pos hp]
    rw [hstep]
  · cases hMk : t.lookup ["Makefile"] with
    | some e =>
      cases e with
      | dir cs2 =>
        have hstep : postPort sn port t = (t, true) := by
          unfold postPort
          rw [if_neg hp, hMk]
        rw [hstep]
      | file cM =>
        have hstep : postPort sn port t =
            postPortAfterMakefile sn (toString port)
              (writeFile t ["Makefile"]
                (pyReplace cM "CHAINLIT_PORT = 1337" ("CHAINLIT_PORT = " ++ toString port))) := by
          unfold postPort
          rw [if_neg hp, hMk]
        rw [hstep]
        have hmne : (["Makefile"] : List String).headD "" ≠ d := by
          intro hh
          have hh2 : ("Makefile" : String) = d := hh
          rw [← hh2] at hd
          exact (show ("Makefile" : String) ∉ SKIP_DIRS by decide) hd
        have hw := lookup_writeFile_head_ne ["Makefile"] t
          (pyReplace cM "CHAINLIT_PORT = 1337" ("CHAINLIT_PORT = " ++ toString port)) d
          hmne (by simp)
        have hdl2 : (writeFile t ["Makefile"]
            (pyReplace cM "CHAINLIT_PORT = 1337" ("CHAINLIT_PORT = " ++ toString port))).lookup
            [d] = some (FSEntry.dir cs) := by
          rw [show ([d] : List String) = d :: ([] : List String) from rfl, hw []]
          exact hdl
        rw [postPortAfterMakefile_protected sn (toString port) _ d hd cs hdl2 hset rest]
        exact hw rest
    | none =>
      have hstep : postPort sn port t =
          postPortAfterMakefile sn (toString port) t := by
        unfold postPort
        rw [if_neg hp, hMk]
      rw [hstep]
      exact postPortAfterMakefile_protected sn (toString port) t d hd cs hdl hset rest

theorem postDescription_protected (names : NameVariants) (desc : Option String)
    (t : FSEntry) (d : String) (hd : d ∈ SKIP_DIRS) :
    ∀ rest, ((postDescription names desc t).1).lookup (d :: rest) = t.lookup (d :: rest) := by
  intro rest
  cases desc with
  | none => rfl
  | some dd =>
    cases hpy : t.lookup ["pyproject.toml"] with
    | none =>
      have hstep : postDescription names (some dd) t = (t, false) := by
        unfold postDescription
        rw [hpy]
      rw [hstep]
    | some e =>
      cases e with
      | dir cs =>
        have hstep : postDescription names (some dd) t = (t, true) := by
          unfold postDescription
          rw [hpy]
        rw [hstep]
      | file c =>
        have hstep : postDescription names (some dd) t =
            (writeFile t ["pyproject.toml"]
              (pyReplace c (names.display_name ++ " - Multi-agent AI Assistant Demo") dd),
              false) := by
          unfold postDescription
          rw [hpy]
        rw [hstep]
        have hne : (["pyproject.toml"] : List String).headD "" ≠ d := by
          intro hh
          have hh2 : ("pyproject.toml" : String) = d := hh
          rw [← hh2] at hd
          exact (show ("pyproject.toml" : String) ∉ SKIP_DIRS by decide) hd
        exact lookup_writeFile_head_ne ["pyproject.toml"] t
          (pyReplace c (names.display_name ++ " - Multi-agent AI Assistant Demo") dd) d
          hne (by simp) rest

theorem lookup_cons_of_lookup (t : FSEntry) (d : String) (ed : FSEntry)
    (h : t.lookup [d] = some ed) (rest : List String) :
    t.lookup (d :: rest) = ed.lookup rest := by
  have h1 := lookup_cons_eq t d rest
  rw [h] at h1
  exact h1

theorem rename_stage_protected (sn pkg pn rn : String) (t3 : FSEntry) (d : String)
    (hd : d ∈ SKIP_DIRS) (cs : FSListing)
    (hdl3 : t3.lookup [d] = some (FSEntry.dir cs)) (hcsne : cs ≠ FSListing.nil) :
    ((rename_paths sn pkg false pn (rn, t3)).1).2.lookup [d] = some (FSEntry.dir cs) := by
  rcases exec_protected d hd cs (computeRenames sn pkg pn rn t3) (rn, t3)
    (computeRenames_src sn pkg pn rn t3) hdl3 with h | h
  · exact h
  · exact absurd h hcsne

/-- C6 counterexample: a non-dry run with `--port 8080` over a template tree
holding `.venv/settings.py` with the default-port literal completes
successfully and rewrites that file, even though it sits inside a protected
directory — the `rglob` of the port override does not skip `SKIP_DIRS`. -/
theorem c6_counterexample :
    c6tree.lookup [".venv", "settings.py"] = some (FSEntry.file "default=1337") ∧
    (scaffold ⟨"kbe-pay", none, none, 8080, false⟩ "home" "proj" c6tree).1 =
      RunStatus.success ∧
    ((scaffold ⟨"kbe-pay", none, none, 8080, false⟩ "home" "proj" c6tree).2.2).lookup
      [".venv", "settings.py"] = some (FSEntry.file "default=8080") :=
  ⟨rfl, rfl, rfl⟩

/-- C6 amended: provided no entry named `settings.py` sits inside a top-level
protected directory, every pre-existing entry strictly inside a top-level
protected directory (one of `SKIP_DIRS` under the project root, holding a
directory) is found unchanged at its path after the whole run — through
cleanup, demo removal, content rewriting, path renaming, the port and
description overrides, and self-deletion, on every argument vector.  The
port override violates this without the side condition (see the
counterexample), because its settings search descends into protected
directories. -/
theorem c6_amended (args : Args) (parentName rootName : String) (t : FSEntry)
    (hs : ∀ d ∈ SKIP_DIRS, ∀ cs, t.lookup [d] = some (FSEntry.dir cs) →
      containsNameL "settings.py" cs = false) :
    ∀ d ∈ SKIP_DIRS, ∀ rest : List String, rest ≠ [] → ∀ e,
      t.lookup (d :: rest) = some e →
      ((scaffold args parentName rootName t).2.2).lookup (d :: rest) = some e := by
  intro d hd rest hrest e hlook
  rw [lookup_cons_eq] at hlook
  cases hdl : t.lookup [d] with
  | none => rw [hdl] at hlook; cases hlook
  | some ed =>
    rw [hdl] at hlook
    have hlook2 : ed.lookup rest = some e := hlook
    cases ed with
    | file c =>
      cases rest with
      | nil => exact absurd rfl hrest
      | cons r rs => rw [lookup_file_cons] at hlook2; cases hlook2
    | dir cs =>
      have hset := hs d hd cs hdl
      have horig : t.lookup (d :: rest) = some e := by
        rw [lookup_cons_eq, hdl]
        exact hlook2
      have hcsne : cs ≠ FSListing.nil := by
        intro hnil
        subst hnil
        cases rest with
        | nil => exact absurd rfl hrest
        | cons r rs =>
          rw [lookup_dir_cons] at hlook2
          have h3 : (none : Option FSEntry) = some e := hlook2
          cases h3
      unfold scaffold
      cases hder : derive_names args.name with
      | error msg => exact horig
      | ok names0 =>
        cases hl : t.lookup ["src", "autobots_agents_jarvis"] with
        | none => exact horig
        | some etpl =>
          cases etpl with
          | file c2 => exact horig
          | dir cstpl =>
            cases hdisp : args.display_name with
            | none =>
              cases hdry : args.dry_run with
              | true =>
                simp only [clean_artifacts_dry, remove_demo_content_dry,
                  replace_in_files_dry, rename_paths_dry, if_true]
                exact horig
              | false =>
                dsimp only
                have E12 : ∀ r : List String,
                    (remove_demo_content false (clean_artifacts false t)).lookup (d :: r)
                      = t.lookup (d :: r) := fun r =>
                  (remove_demo_content_protected d hd false _ r).trans
                    (clean_artifacts_protected d hd false t r)
                have ht2d : (remove_demo_content false (clean_artifacts false t)).lookup [d]
                    = some (FSEntry.dir cs) := (E12 []).trans hdl
                have E3 := replace_in_files_protected (build_replacements names0) false
                  (remove_demo_content false (clean_artifacts false t)) d hd cs ht2d
                have ht3d : (replace_in_files (build_replacements names0) false
                    (remove_demo_content false (clean_artifacts false t))).lookup [d]
                    = some (FSEntry.dir cs) := (E3 []).trans ht2d
                have h4 := rename_stage_protected names0.snake_name names0.package_name
                  parentName rootName _ d hd cs ht3d hcsne
                cases hrp : rename_paths names0.snake_name names0.package_name false
                    parentName (rootName, replace_in_files (build_replacements names0) false
                      (remove_demo_content false (clean_artifacts false t))) with
                | mk st4 b =>
                  rw [hrp] at h4
                  have h4b : st4.2.lookup [d] = some (FSEntry.dir cs) := h4
                  have E4 : ∀ r, st4.2.lookup (d :: r) = t.lookup (d :: r) := fun r =>
                    (lookup_cons_of_lookup st4.2 d (FSEntry.dir cs) h4b r).trans
                      (lookup_cons_of_lookup t d (FSEntry.dir cs) hdl r).symm
                  cases b with
                  | true => exact (E4 rest).trans horig
                  | false =>
                    dsimp only
                    cases hpd : postDescription names0 args.description st4.2 with
                    | mk t5 b5 =>
                      have ED : ∀ r, t5.lookup (d :: r) = st4.2.lookup (d :: r) := by
                        intro r
                        have hx := postDescription_protected names0 args.description
                          st4.2 d hd r
                        rw [hpd] at hx
                        exact hx
                      cases b5 with
                      | true => exact (ED rest).trans ((E4 rest).trans horig)
                      | false =>
                        dsimp only
                        have h5d : t5.lookup [d] = some (FSEntry.dir cs) :=
                          (ED []).trans h4b
                        cases hpp : postPort names0.snake_name args.port t5 with
                        | mk t6 b6 =>
                          have EP : ∀ r, t6.lookup (d :: r) = t5.lookup (d :: r) := by
                            intro r
                            have hx := postPort_protected names0.snake_name args.port
                              t5 d hd cs h5d hset r
                            rw [hpp] at hx
                            exact hx
                          cases b6 with
                          | true =>
                            exact (EP rest).trans ((ED rest).trans ((E4 rest).trans horig))
                          | false =>
                            dsimp only
                            cases hsd : t6.lookup ["sbin", "scaffold.py"] with
                            | none =>
                              exact (EP rest).trans ((ED rest).trans ((E4 rest).trans horig))
                            | some esd =>
                              cases esd with
                              | dir csd2 =>
                                exact (EP rest).trans
                                  ((ED rest).trans ((E4 rest).trans horig))
                              | file csd =>
                                have hnes : ((["sbin", "scaffold.py"] :
                                    List String)).headD "" ≠ d := by
                                  intro hh
                                  have hh2 : ("sbin" : String) = d := hh
                                  rw [← hh2] at hd
                                  exact (show ("sbin" : String) ∉ SKIP_DIRS by decide) hd
                                exact (lookup_removePath_head_ne ["sbin", "scaffold.py"] t6 d
                                    hnes (by simp) rest).trans
                                  ((EP rest).trans ((ED rest).trans ((E4 rest).trans horig)))
            | some disp =>
              cases hdry : args.dry_run with
              | true =>
                simp only [clean_artifacts_dry, remove_demo_content_dry,
                  replace_in_files_dry, rename_paths_dry, if_true]
                exact horig
              | false =>
                dsimp only
                have E12 : ∀ r : List String,
                    (remove_demo_content false (clean_artifacts false t)).lookup (d :: r)
                      = t.lookup (d :: r) := fun r =>
                  (remove_demo_content_protected d hd false _ r).trans
                    (clean_artifacts_protected d hd false t r)
                have ht2d : (remove_demo_content false (clean_artifacts false t)).lookup [d]
                    = some (FSEntry.dir cs) := (E12 []).trans hdl
                have E3 := replace_in_files_protected
                  (build_replacements ⟨names0.name, names0.repo_name, names0.pypi_name,
                    names0.package_name, names0.snake_name, names0.pascal_name, disp⟩) false
                  (remove_demo_content false (clean_artifacts false t)) d hd cs ht2d
                have ht3d : (replace_in_files
                    (build_replacements ⟨names0.name, names0.repo_name, names0.pypi_name,
                      names0.package_name, names0.snake_name, names0.pascal_name, disp⟩) false
                    (remove_demo_content false (clean_artifacts false t))).lookup [d]
                    = some (FSEntry.dir cs) := (E3 []).trans ht2d
                have h4 := rename_stage_protected names0.snake_name names0.package_name
                  parentName rootName _ d hd cs ht3d hcsne
                cases hrp : rename_paths names0.snake_name names0.package_name false
                    parentName (rootName, replace_in_files
                      (build_replacements ⟨names0.name, names0.repo_name, names0.pypi_name,
                        names0.package_name, names0.snake_name, names0.pascal_name, disp⟩)
                      false
                      (remove_demo_content false (clean_artifacts false t))) with
                | mk st4 b =>
                  rw [hrp] at h4
                  have h4b : st4.2.lookup [d] = some (FSEntry.dir cs) := h4
                  have E4 : ∀ r, st4.2.lookup (d :: r) = t.lookup (d :: r) := fun r =>
                    (lookup_cons_of_lookup st4.2 d (FSEntry.dir cs) h4b r).trans
                      (lookup_cons_of_lookup t d (FSEntry.dir cs) hdl r).symm
                  cases b with
                  | true => exact (E4 rest).trans horig
                  | false =>
                    dsimp only
                    cases hpd : postDescription ⟨names0.name, names0.repo_name,
                        names0.pypi_name, names0.package_name, names0.snake_name,
                        names0.pascal_name, disp⟩ args.description st4.2 with
                    | mk t5 b5 =>
                      have ED : ∀ r, t5.lookup (d :: r) = st4.2.lookup (d :: r) := by
                        intro r
                        have hx := postDescription_protected ⟨names0.name, names0.repo_name,
                          names0.pypi_name, names0.package_name, names0.snake_name,
                          names0.pascal_name, disp⟩ args.description st4.2 d hd r
                        rw [hpd] at hx
                        exact hx
                      cases b5 with
                      | true => exact (ED rest).trans ((E4 rest).trans horig)
                      | false =>
                        dsimp only
                        have h5d : t5.lookup [d] = some (FSEntry.dir cs) :=
                          (ED []).trans h4b
                        cases hpp : postPort names0.snake_name args.port t5 with
                        | mk t6 b6 =>
                          have EP : ∀ r, t6.lookup (d :: r) = t5.lookup (d :: r) := by
                            intro r
                            have hx := postPort_protected names0.snake_name args.port
                              t5 d hd cs h5d hset r
                            rw [hpp] at hx
                            exact hx
                          cases b6 with
                          | true =>
                            exact (EP rest).trans ((ED rest).trans ((E4 rest).trans horig))
                          | false =>
                            dsimp only
                            cases hsd : t6.lookup ["sbin", "scaffold.py"] with
                            | none =>
                              exact (EP rest).trans ((ED rest).trans ((E4 rest).trans horig))
                            | some esd =>
                              cases esd with
                              | dir csd2 =>
                                exact (EP rest).trans
                                  ((ED rest).trans ((E4 rest).trans horig))
                              | file csd =>
                                have hnes : ((["sbin", "scaffold.py"] :
                                    List String)).headD "" ≠ d := by
                                  intro hh
                                  have hh2 : ("sbin" : String) = d := hh
                                  rw [← hh2] at hd
                                  exact (show ("sbin" : String) ∉ SKIP_DIRS by decide) hd
                                exact (lookup_removePath_head_ne ["sbin", "scaffold.py"] t6 d
                                    hnes (by simp) rest).trans
                                  ((EP rest).trans ((ED rest).trans ((E4 rest).trans horig)))

theorem c6_witness :
    ((scaffold ⟨"kbe-pay", none, none, 8080, false⟩ "home" "proj" c6wtree).2.2).lookup
      [".venv", "keep.txt"] = some (FSEntry.file "keep me") :=
  c6_amended ⟨"kbe-pay", none, none, 8080, false⟩ "home" "proj" c6wtree
    (by
      intro d hdm cs hcs
      fin_cases hdm
      · have h2 : (none : Option FSEntry) = some (FSEntry.dir cs) := hcs
        cases h2
      · have h2 : some (FSEntry.dir (FSListing.cons "keep.txt" (FSEntry.file "keep me")
            FSListing.nil)) = some (FSEntry.dir cs) := hcs
        cases h2
        decide
      · have h2 : (none : Option FSEntry) = some (FSEntry.dir cs) := hcs
        cases h2
      · have h2 : (none : Option FSEntry) = some (FSEntry.dir cs) := hcs
        cases h2)
    ".venv" (by decide) ["keep.txt"] (by decide) (FSEntry.file "keep me") rfl
